import Mathlib

/-!
# ZeroTraceConverter: the upload → conversion → download pipeline of `server.js`

A shallow embedding of the request handlers of `src/server.js`.

* JavaScript strings are Lean strings; `startsWith`, `endsWith`, `includes` and `===` are
  the corresponding list operations on their characters.
* The pure Node library functions the handlers call (`path.extname`, `path.basename`,
  `path.join`, `String.prototype.toLowerCase`) are the fields of `Lib`: every theorem holds
  for whatever these functions compute.
* Everything a handler observes of the outside (the clock, the file system, the external
  converter, pdf-lib, tesseract) is a field of `World`; every call is recorded, in program
  order, in the trace of `Effect`s the handler produces.
* A PDF document is its list of pages.
-/

namespace ZeroTrace

/-! ## JavaScript values and strings -/

/-- A value that can be thrown or passed to `reject`: a string (what `execPromise` rejects
with when the subprocess printed something) or an `Error` object. -/
inductive JsVal where
  | str (s : String)
  | error (name : String) (message : String)
  deriving DecidableEq, Repr

deriving instance DecidableEq for Except

/-- The string `'' + v`: a string is itself, an `Error` prints as `name: message`
(`Error.prototype.toString`). -/
def JsVal.toStr : JsVal → String
  | .str s => s
  | .error name message =>
      if name = "" then message else if message = "" then name else name ++ ": " ++ message

/-- The string `'' + v.message`: a string has no `message` property, so the property read
gives `undefined`. -/
def JsVal.messageStr : JsVal → String
  | .str _ => "undefined"
  | .error _ message => message

/-- `s.startsWith(p)`. -/
def startsWith (s p : String) : Bool := p.data.isPrefixOf s.data

/-- `s.endsWith(p)`. -/
def endsWith (s p : String) : Bool := p.data.isSuffixOf s.data

/-- `s.includes(p)`. -/
def includes (s p : String) : Bool := decide (p.data <:+: s.data)

/-! ## Data model -/

/-- One entry of `req.files`, as multer fills it in. -/
structure UploadedFile where
  originalname : String
  mimetype : String
  path : String
  deriving DecidableEq, Repr

/-- The part of a `/convert` request the handler reads: `req.body.type` (absent when the
form has no such field) and `req.files`. -/
structure Request where
  type : Option String
  files : List UploadedFile
  deriving DecidableEq, Repr

/-- An embedded image: what `embedJpg` / `embedPng` return. -/
structure Image where
  width : Nat
  height : Nat
  ref : String
  deriving DecidableEq, Repr

/-- A `page.drawImage(image, { x, y, width, height })` call. -/
structure Drawing where
  image : Image
  x : Nat
  y : Nat
  width : Nat
  height : Nat
  deriving DecidableEq, Repr

/-- A page of a PDF document: its size and what has been drawn on it. -/
structure PdfPage where
  width : Nat
  height : Nat
  content : List Drawing
  deriving DecidableEq, Repr

/-- A PDF document is its list of pages. -/
abbrev PdfDoc := List PdfPage

/-- File contents, as `fs.readFileSync` returns them. -/
abbrev Bytes := List Nat

/-- The pages the HTTP handlers answer with. -/
inductive Page where
  | errorPage (msg : String)
  | successPage (fileName : String) (downloadUrl : String) (conversionType : String)
  | ocrResult (text : String)
  deriving DecidableEq, Repr

/-- How a run of the `/convert` handler ends: a response was sent, or an exception left the
handler. -/
inductive Outcome where
  | replied (status : Nat) (page : Page)
  | escaped (e : JsVal)
  deriving DecidableEq, Repr

/-- The calls a handler makes to the outside, recorded in program order. -/
inductive Effect where
  | exec (cmd : String)
  | existsSync (p : String)
  | renameSync (src : String) (dst : String)
  | readdirSync (dir : String)
  | readFileSync (p : String)
  | writeFileSync (p : String) (doc : PdfDoc)
  | unlinkSync (p : String)
  | pdfLoad (bytes : Bytes)
  | embedJpg (bytes : Bytes)
  | embedPng (bytes : Bytes)
  | recognize (p : String)
  | createWriteStream (p : String)
  | archiveAppend (name : String) (doc : PdfDoc)
  | archiveFile (p : String) (name : String)
  | archiveFinalize (p : String)
  | unlink (p : String)
  deriving DecidableEq, Repr

/-- The pure Node library functions used by the handlers. -/
structure Lib where
  extname : String → String
  basename : String → String → String
  join : String → String → String
  toLowerCase : String → String

/-- The arguments `child_process.exec` passes to its callback. -/
structure ExecResult where
  err : Option JsVal
  stdout : String
  stderr : String
  deriving DecidableEq, Repr

/-- What the outside answers to each call made during one request. -/
structure World where
  tmpdir : String
  now : Nat
  exec : String → ExecResult
  existsSync : String → Bool
  renameSync : String → String → Except JsVal Unit
  readdirSync : String → Except JsVal (List String)
  readFileSync : String → Except JsVal Bytes
  writeFileSync : String → Except JsVal Unit
  pdfLoad : Bytes → Except JsVal PdfDoc
  embedJpg : Bytes → Except JsVal Image
  embedPng : Bytes → Except JsVal Image
  recognize : String → Except JsVal String
  archiveFinalize : String → Except JsVal Unit

/-! ## Traced computations with exceptions -/

/-- A computation that records the calls it makes and either returns or throws; the calls
recorded before a throw are kept. -/
structure Act (α : Type) where
  trace : List Effect
  result : Except JsVal α

namespace Act

/-- Return without effect. -/
def ret {α : Type} (a : α) : Act α := ⟨[], .ok a⟩

/-- Sequencing: the calls of the first part, then (unless it threw) those of the second. -/
def bind {α β : Type} (m : Act α) (f : α → Act β) : Act β :=
  match m.result with
  | .error e => ⟨m.trace, .error e⟩
  | .ok a => ⟨m.trace ++ (f a).trace, (f a).result⟩

/-- Record one call. -/
def emit (e : Effect) : Act Unit := ⟨[e], .ok ()⟩

/-- Record a sequence of calls, none of which can throw. -/
def emits (es : List Effect) : Act Unit := ⟨es, .ok ()⟩

/-- Record one call and continue with (or throw) what the outside answered. -/
def call {α : Type} (e : Effect) (r : Except JsVal α) : Act α := ⟨[e], r⟩

/-- A library computation that makes no call to the outside. -/
def lift {α : Type} (r : Except JsVal α) : Act α := ⟨[], r⟩

/-- The statement `try { m } catch (error) { h error }`. -/
def tryCatch {α : Type} (m : Act α) (h : JsVal → Act α) : Act α :=
  match m.result with
  | .ok a => ⟨m.trace, .ok a⟩
  | .error e => ⟨m.trace ++ (h e).trace, (h e).result⟩

end Act

instance : Monad Act where
  pure := Act.ret
  bind := Act.bind

/-! ## `server.js` -/

/-- The function `getLibreOfficePath` at `server.js:40`. -/
def getLibreOfficePath : String :=
  let possiblePaths : List String := [
    "\"C:\\Program Files\\LibreOffice\\program\\soffice.exe\"",
    "\"C:\\Program Files (x86)\\LibreOffice\\program\\soffice.exe\"",
    "soffice"]
  possiblePaths.headD ""

/-- The function `validateFileType` at `server.js:51`. -/
def validateFileType (L : Lib) (file : UploadedFile) (allowedTypes : List String) : Bool :=
  let fileExtension := L.toLowerCase (L.extname file.originalname)
  let mimeType := file.mimetype
  allowedTypes.any fun type =>
    if startsWith type "." then decide (fileExtension = type) else includes mimeType type

/-- The function `execPromise` at `server.js:1122`, applied to what `exec` reports. -/
def execPromise (r : ExecResult) : Except JsVal String :=
  match r.err with
  | some err =>
      if r.stderr ≠ "" then .error (.str r.stderr)
      else if r.stdout ≠ "" then .error (.str r.stdout)
      else .error err
  | none => .ok r.stdout

/-- The function `cleanup` at `server.js:1131`: one `fs.unlink` per path, in order, with a
callback that ignores the error. -/
def cleanup (paths : List String) : Act Unit := Act.emits (paths.map Effect.unlink)

/-- A response: the status (200 unless `res.status` was called) and the page sent. -/
structure Reply where
  status : Nat
  page : Page
  deriving DecidableEq, Repr

/-- The result of `res.send(page)`. -/
def send (page : Page) : Reply := ⟨200, page⟩

/-- What the lookup `validationRules[type]` at `server.js:734` evaluates to: one of the ten
own properties (an array of allowed types), a member inherited from `Object.prototype`
(truthy, but not an array), or `undefined`. -/
inductive RuleLookup where
  | rules (allowedTypes : List String)
  | inherited
  | undefined
  deriving DecidableEq, Repr

/-- The property names every object literal inherits from `Object.prototype`. -/
def objectPrototypeKeys : List String :=
  ["constructor", "__defineGetter__", "__defineSetter__", "hasOwnProperty",
   "__lookupGetter__", "__lookupSetter__", "isPrototypeOf", "propertyIsEnumerable",
   "toString", "valueOf", "__proto__", "toLocaleString"]

/-- The own properties of the object literal `validationRules` at `server.js:721`. -/
def validationTable : List (String × List String) :=
  [("pdf2word", [".pdf", "application/pdf"]),
   ("word2pdf", [".doc", ".docx", "application/msword",
      "application/vnd.openxmlformats-officedocument.wordprocessingml.document"]),
   ("img2pdf", [".jpg", ".jpeg", ".png", ".gif", "image/"]),
   ("pdf2img", [".pdf", "application/pdf"]),
   ("excel2pdf", [".xls", ".xlsx", "application/vnd.ms-excel",
      "application/vnd.openxmlformats-officedocument.spreadsheetml.sheet"]),
   ("pdf2excel", [".pdf", "application/pdf"]),
   ("mergepdf", [".pdf", "application/pdf"]),
   ("splitpdf", [".pdf", "application/pdf"]),
   ("compresspdf", [".pdf", "application/pdf"]),
   ("ocr", [".jpg", ".jpeg", ".png", ".pdf", "image/", "application/pdf"])]

/-- The ten kind identifiers. -/
def kinds : List String := validationTable.map Prod.fst

/-- The expression `validationRules[type]` at `server.js:734`. -/
def validationRules (type : Option String) : RuleLookup :=
  match type with
  | none => .undefined
  | some t =>
      match validationTable.lookup t with
      | some allowedTypes => .rules allowedTypes
      | none => if t ∈ objectPrototypeKeys then .inherited else .undefined

/-- The decimal text of `Date.now()` inside a template literal. -/
def timestamp (w : World) : String := toString w.now

/-- The call `await execPromise(cmd)`. -/
def runExec (w : World) (cmd : String) : Act String :=
  Act.call (.exec cmd) (execPromise (w.exec cmd))

/-- The command line of the four converter recipes:
`${libreOfficePath} --headless --convert-to <format> --outdir ${os.tmpdir()} "${input}"`. -/
def officeCommand (w : World) (format input : String) : String :=
  getLibreOfficePath ++ " --headless --convert-to " ++ format ++ " --outdir "
    ++ w.tmpdir ++ " \"" ++ input ++ "\""

/-- The four recipes that hand the first file to the external converter (`pdf2word` at
`server.js:746`, `word2pdf` at `:765`, `excel2pdf` at `:867`, `pdf2excel` at `:884`); they
differ in the target format, the output file name and the label of the success page. -/
def officeRecipe (L : Lib) (w : World) (file0 : UploadedFile)
    (format outputFilename conversionType : String) : Act Reply := do
  let input := file0.path
  let output := L.join w.tmpdir outputFilename
  let _ ← runExec w (officeCommand w format input)
  let generatedOutput := input ++ "." ++ format
  let present ← Act.call (.existsSync generatedOutput) (.ok (w.existsSync generatedOutput))
  if present then
    Act.call (.renameSync generatedOutput output) (w.renameSync generatedOutput output)
  cleanup [input]
  return send (.successPage outputFilename ("/download/" ++ outputFilename) conversionType)

/-! ### pdf-lib -/

/-- The blank page `addPage()` creates when it is given no page (A4, in whole points). -/
def defaultPage : PdfPage := ⟨595, 842, []⟩

/-- The method `doc.addPage(page)`: the page becomes the last page. -/
def addPage (doc : PdfDoc) (page : PdfPage) : PdfDoc := doc ++ [page]

/-- The method `src.getPageIndices()`. -/
def getPageIndices (src : PdfDoc) : List Nat := List.range src.length

/-- One page of `copyPages`: a copy of page `i` of the source, an exception when the source
has no such page. -/
def copyPage (src : PdfDoc) (i : Nat) : Except JsVal PdfPage :=
  match src[i]? with
  | some page => .ok page
  | none => .error (.error "Error" "page index out of range")

/-- The method `dst.copyPages(src, indices)`: copies of the pages at the given indices, in
the order of the indices. -/
def copyPages (src : PdfDoc) (indices : List Nat) : Except JsVal (List PdfPage) :=
  indices.mapM (copyPage src)

/-- The method `doc.save({ addDefaultPage })`, on the page model: a document without pages
gets one blank page before it is written, unless `addDefaultPage` is `false` (it is `true`
when the option is left out, as in `save()`). -/
def save (doc : PdfDoc) (addDefaultPage : Bool) : PdfDoc :=
  if addDefaultPage && doc.length == 0 then addPage doc defaultPage else doc

/-- The page the `img2pdf` recipe makes of an image: `addPage([image.width, image.height])`
followed by `drawImage(image, { x: 0, y: 0, width: image.width, height: image.height })`. -/
def imagePage (image : Image) : PdfPage :=
  ⟨image.width, image.height, [⟨image, 0, 0, image.width, image.height⟩]⟩

/-- The loop `for (const file of files)` of the `img2pdf` recipe at `server.js:784`. -/
def img2pdfLoop (w : World) : List UploadedFile → PdfDoc → Act PdfDoc
  | [], pdfDoc => pure pdfDoc
  | file :: rest, pdfDoc => do
      let imgBytes ← Act.call (.readFileSync file.path) (w.readFileSync file.path)
      let image ←
        if file.mimetype = "image/jpeg" then
          some <$> Act.call (.embedJpg imgBytes) (w.embedJpg imgBytes)
        else if file.mimetype = "image/png" then
          some <$> Act.call (.embedPng imgBytes) (w.embedPng imgBytes)
        else pure none
      match image with
      | some image => img2pdfLoop w rest (addPage pdfDoc (imagePage image))
      | none => img2pdfLoop w rest pdfDoc

/-- The `img2pdf` recipe at `server.js:782`. -/
def img2pdf (L : Lib) (w : World) (files : List UploadedFile) : Act Reply := do
  let pdfDoc ← img2pdfLoop w files []
  let pdfBytes := save pdfDoc true
  let outputFilename := "converted_images_" ++ timestamp w ++ ".pdf"
  let outputPath := L.join w.tmpdir outputFilename
  Act.call (.writeFileSync outputPath pdfBytes) (w.writeFileSync outputPath)
  cleanup (files.map UploadedFile.path)
  return send (.successPage outputFilename ("/download/" ++ outputFilename) "Images to PDF")

/-- The loop `for (const file of files)` of the `mergepdf` recipe at `server.js:905`. -/
def mergeLoop (w : World) : List UploadedFile → PdfDoc → Act PdfDoc
  | [], pdfDoc => pure pdfDoc
  | file :: rest, pdfDoc => do
      let bytes ← Act.call (.readFileSync file.path) (w.readFileSync file.path)
      let srcPdf ← Act.call (.pdfLoad bytes) (w.pdfLoad bytes)
      let pages ← Act.lift (copyPages srcPdf (getPageIndices srcPdf))
      mergeLoop w rest (pages.foldl addPage pdfDoc)

/-- The `mergepdf` recipe at `server.js:903`. -/
def mergepdf (L : Lib) (w : World) (files : List UploadedFile) : Act Reply := do
  let pdfDoc ← mergeLoop w files []
  let pdfBytes := save pdfDoc true
  let outputFilename := "merged_pdfs_" ++ timestamp w ++ ".pdf"
  let outputPath := L.join w.tmpdir outputFilename
  Act.call (.writeFileSync outputPath pdfBytes) (w.writeFileSync outputPath)
  cleanup (files.map UploadedFile.path)
  return send (.successPage outputFilename ("/download/" ++ outputFilename) "PDF Merge")

/-- The entry name `page_${i + 1}.pdf` of the `splitpdf` recipe at `server.js:939`. -/
def pageName (i : Nat) : String := "page_" ++ toString (i + 1) ++ ".pdf"

/-- The loop `for (let i = 0; i < pageCount; i++)` of the `splitpdf` recipe at
`server.js:934`, over the indices still to do. -/
def splitLoop (srcPdf : PdfDoc) : List Nat → Act Unit
  | [] => pure ()
  | i :: rest => do
      let newPdf : PdfDoc := []
      let page ← Act.lift (copyPage srcPdf i)
      let newPdf := addPage newPdf page
      let pdfBytes := save newPdf true
      Act.emit (.archiveAppend (pageName i) pdfBytes)
      splitLoop srcPdf rest

/-- The `splitpdf` recipe at `server.js:921`. -/
def splitpdf (L : Lib) (w : World) (file0 : UploadedFile) (files : List UploadedFile) :
    Act Reply := do
  let bytes ← Act.call (.readFileSync file0.path) (w.readFileSync file0.path)
  let srcPdf ← Act.call (.pdfLoad bytes) (w.pdfLoad bytes)
  let pageCount := srcPdf.length
  let outputFilename := "split_pages_" ++ timestamp w ++ ".zip"
  let outputPath := L.join w.tmpdir outputFilename
  Act.emit (.createWriteStream outputPath)
  splitLoop srcPdf (List.range pageCount)
  Act.call (.archiveFinalize outputPath) (w.archiveFinalize outputPath)
  cleanup (files.map UploadedFile.path)
  return send (.successPage outputFilename ("/download/" ++ outputFilename) "PDF Split")

/-- The `compresspdf` recipe at `server.js:954`. -/
def compresspdf (L : Lib) (w : World) (file0 : UploadedFile) (files : List UploadedFile) :
    Act Reply := do
  let bytes ← Act.call (.readFileSync file0.path) (w.readFileSync file0.path)
  let srcPdf ← Act.call (.pdfLoad bytes) (w.pdfLoad bytes)
  let newPdf : PdfDoc := []
  let pages ← Act.lift (copyPages srcPdf (getPageIndices srcPdf))
  let newPdf := pages.foldl addPage newPdf
  let pdfBytes := save newPdf false
  let outputFilename := "compressed_" ++ timestamp w ++ ".pdf"
  let outputPath := L.join w.tmpdir outputFilename
  Act.call (.writeFileSync outputPath pdfBytes) (w.writeFileSync outputPath)
  cleanup (files.map UploadedFile.path)
  return send (.successPage outputFilename ("/download/" ++ outputFilename) "PDF Compression")

/-! ### Recipes that render through the external converter -/

/-- The command of the `pdf2img` and `ocr` recipes (`server.js:817`, `:993`). -/
def renderCommand (w : World) (input : String) : String :=
  getLibreOfficePath ++ " --headless --convert-to png --outdir \"" ++ w.tmpdir ++ "\" \""
    ++ input ++ "\""

/-- The filter `file => file.startsWith(baseName) && file.endsWith('.png')`. -/
def isRendered (baseName : String) (file : String) : Bool :=
  startsWith file baseName && endsWith file ".png"

/-- The `pdf2img` recipe at `server.js:809`. -/
def pdf2img (L : Lib) (w : World) (file0 : UploadedFile) (files : List UploadedFile) :
    Act Reply :=
  let input := file0.path
  let tempDir := w.tmpdir
  Act.tryCatch (do
    let _ ← runExec w (renderCommand w input)
    let baseName := L.basename input (L.extname input)
    let listing ← Act.call (.readdirSync tempDir) (w.readdirSync tempDir)
    let pngFiles := listing.filter (isRendered baseName)
    if pngFiles.length > 0 then do
      let outputFilename := "pdf_images_" ++ timestamp w ++ ".zip"
      let outputPath := L.join tempDir outputFilename
      Act.emit (.createWriteStream outputPath)
      Act.emits (pngFiles.map fun pngFile => .archiveFile (L.join tempDir pngFile) pngFile)
      Act.call (.archiveFinalize outputPath) (w.archiveFinalize outputPath)
      Act.emits (pngFiles.map fun pngFile => .unlinkSync (L.join tempDir pngFile))
      cleanup (files.map UploadedFile.path)
      return send (.successPage outputFilename ("/download/" ++ outputFilename) "PDF to Images")
    else do
      cleanup (files.map UploadedFile.path)
      return send (.errorPage "Failed to convert PDF to images. Please ensure the PDF is valid."))
  (fun error => do
    cleanup (files.map UploadedFile.path)
    return send (.errorPage ("Error converting PDF to images: " ++ error.messageStr)))

/-- The `try` block of the `ocr` recipe at `server.js:983`: the value `text` ends up with. -/
def ocrText (L : Lib) (w : World) (inputFile : UploadedFile) : Act String :=
  if startsWith inputFile.mimetype "image/" then
    Act.call (.recognize inputFile.path) (w.recognize inputFile.path)
  else if inputFile.mimetype = "application/pdf" then do
    let tempDir := w.tmpdir
    let _ ← runExec w (renderCommand w inputFile.path)
    let baseName := L.basename inputFile.path (L.extname inputFile.path)
    let listing ← Act.call (.readdirSync tempDir) (w.readdirSync tempDir)
    let pngFiles := listing.filter (isRendered baseName)
    match pngFiles with
    | pngFile :: _ => do
        let pngPath := L.join tempDir pngFile
        let text ← Act.call (.recognize pngPath) (w.recognize pngPath)
        Act.emit (.unlinkSync pngPath)
        return text
    | [] =>
        return "Could not extract text from PDF. The PDF might be empty or contain only non-text content."
  else
    return "Unsupported file type for OCR. Please upload an image (PNG, JPG) or PDF file."

/-- The `ocr` recipe at `server.js:979`. -/
def ocr (L : Lib) (w : World) (file0 : UploadedFile) (files : List UploadedFile) :
    Act Reply := do
  let inputFile := file0
  let text ← Act.tryCatch (ocrText L w inputFile)
    (fun error => pure ("Error during OCR processing: " ++ error.messageStr))
  cleanup (files.map UploadedFile.path)
  return send (.ocrResult text)

/-! ### The `/convert` and `/download` routes -/

/-- The body of the `try` block of the `/convert` handler at `server.js:744`. -/
def dispatch (L : Lib) (w : World) (type : Option String) (file0 : UploadedFile)
    (files : List UploadedFile) : Act Reply :=
  if type = some "pdf2word" then
    officeRecipe L w file0 "docx" ("converted_" ++ timestamp w ++ ".docx") "PDF to Word"
  else if type = some "word2pdf" then
    officeRecipe L w file0 "pdf" ("converted_" ++ timestamp w ++ ".pdf") "Word to PDF"
  else if type = some "img2pdf" then img2pdf L w files
  else if type = some "pdf2img" then pdf2img L w file0 files
  else if type = some "excel2pdf" then
    officeRecipe L w file0 "pdf" ("converted_excel_" ++ timestamp w ++ ".pdf") "Excel to PDF"
  else if type = some "pdf2excel" then
    officeRecipe L w file0 "xlsx" ("converted_" ++ timestamp w ++ ".xlsx") "PDF to Excel"
  else if type = some "mergepdf" then mergepdf L w files
  else if type = some "splitpdf" then splitpdf L w file0 files
  else if type = some "compresspdf" then compresspdf L w file0 files
  else if type = some "ocr" then ocr L w file0 files
  else do
    cleanup (files.map UploadedFile.path)
    return send (.errorPage "Conversion type not implemented.")

/-- The `try { … } catch (err) { … }` of the `/convert` handler at `server.js:744`. -/
def guarded (L : Lib) (w : World) (type : Option String) (file0 : UploadedFile)
    (files : List UploadedFile) : Act Reply :=
  Act.tryCatch (dispatch L w type file0 files) fun err => do
    cleanup (files.map UploadedFile.path)
    return ⟨500, .errorPage ("Error during conversion: " ++ err.toStr)⟩

/-- How a traced computation of a reply ends the request. -/
def finish (r : Act Reply) : List Effect × Outcome :=
  match r.result with
  | .ok reply => (r.trace, .replied reply.status reply.page)
  | .error e => (r.trace, .escaped e)

/-- The `TypeError` of calling `allowedTypes.some` on a value that is not an array. -/
def notAFunction : JsVal := .error "TypeError" "allowedTypes.some is not a function"

/-- The handler of `POST /convert` at `server.js:712`: the trace of its calls and how it
ends. -/
def convert (L : Lib) (w : World) (req : Request) : List Effect × Outcome :=
  match req.files with
  | [] => ([], .replied 200 (.errorPage "No file uploaded."))
  | file0 :: rest =>
      let files := file0 :: rest
      match validationRules req.type with
      | .rules allowedTypes =>
          if files.any (fun file => !validateFileType L file allowedTypes) then
            finish (do
              cleanup (files.map UploadedFile.path)
              return send (.errorPage ("Invalid file type for " ++ req.type.getD "undefined"
                ++ ". Please upload the correct file format.")))
          else finish (guarded L w req.type file0 files)
      | .inherited => ([], .escaped notAFunction)
      | .undefined => finish (guarded L w req.type file0 files)

/-- How the handler of `GET /download/:filename` ends: with `res.download(filePath, cb)`,
where the callback `cb` schedules `fs.unlink(filePath)` after `unlinkAfterMs` milliseconds,
or with a page sent. -/
inductive DownloadOutcome where
  | download (filePath : String) (unlinkAfterMs : Nat)
  | replied (status : Nat) (page : Page)
  deriving DecidableEq, Repr

/-- The path the download route looks at: `path.join(os.tmpdir(), filename)`. -/
def downloadPath (L : Lib) (w : World) (filename : String) : String :=
  L.join w.tmpdir filename

/-- The handler of `GET /download/:filename` at `server.js:697`. -/
def download (L : Lib) (w : World) (filename : String) : DownloadOutcome :=
  let filePath := downloadPath L w filename
  if w.existsSync filePath then .download filePath 5000
  else .replied 404 (.errorPage "File not found or has expired.")

/-! ## A concrete library and worlds, for evaluating the handlers -/

/-- The last component of a path: what follows the last `/`. -/
def lastComponent (cs : List Char) : List Char :=
  (cs.reverse.takeWhile (· ≠ '/')).reverse

/-- The extension of a plain file name: from its last dot on, empty when there is no dot or
the only dot comes first. -/
def plainExtname (p : String) : String :=
  let name := lastComponent p.data
  let ext := (name.reverse.takeWhile (· ≠ '.')).reverse
  if ext.length + 1 < name.length then String.mk ('.' :: ext) else ""

/-- The base name of a path, without the given extension when it ends in it. -/
def plainBasename (p ext : String) : String :=
  let name := lastComponent p.data
  if ext ≠ "" ∧ ext.data.isSuffixOf name ∧ ext.length < name.length then
    String.mk (name.take (name.length - ext.length))
  else String.mk name

/-- A library for plain file names: ASCII lower-casing, `/` as separator. -/
def plainLib : Lib where
  extname := plainExtname
  basename := plainBasename
  join := fun dir name => dir ++ "/" ++ name
  toLowerCase := fun s => String.mk (s.data.map Char.toLower)

/-- A world in which every call succeeds: the converter prints nothing and leaves no file,
the temp directory is empty, every document loads as having no page. -/
def quietWorld : World where
  tmpdir := "/tmp"
  now := 1700000000000
  exec := fun _ => ⟨none, "", ""⟩
  existsSync := fun _ => false
  renameSync := fun _ _ => .ok ()
  readdirSync := fun _ => .ok []
  readFileSync := fun _ => .ok []
  writeFileSync := fun _ => .ok ()
  pdfLoad := fun _ => .ok []
  embedJpg := fun _ => .ok ⟨800, 600, "jpg"⟩
  embedPng := fun _ => .ok ⟨640, 480, "png"⟩
  recognize := fun _ => .ok "text"
  archiveFinalize := fun _ => .ok ()

/-- The quiet world, except that the converter has left its output file. -/
def convertedWorld : World := { quietWorld with existsSync := fun _ => true }

/-- The kinds handled by the external converter, each with its target format. -/
def officeKinds : List (String × String) :=
  [("pdf2word", "docx"), ("word2pdf", "pdf"), ("excel2pdf", "pdf"), ("pdf2excel", "xlsx")]

/-- How often a path is handed to `fs.unlink` (by `cleanup`) in a trace. -/
def unlinkCount (t : List Effect) (p : String) : Nat := t.count (.unlink p)

/-- The rename calls of a trace. -/
def renames (t : List Effect) : List (String × String) :=
  t.filterMap fun e => match e with
    | .renameSync src dst => some (src, dst)
    | _ => none

/-- The paths at which a trace creates a file: `fs.writeFileSync(p, …)` and
`fs.createWriteStream(p)`. -/
def writtenPath : Effect → Option String
  | .writeFileSync p _ => some p
  | .createWriteStream p => some p
  | _ => none

/-- The paths at which a trace creates files, in program order. -/
def written (t : List Effect) : List String := t.filterMap writtenPath

/-- The kinds whose recipe writes the result artifact itself. -/
def writingKinds : List String := ["img2pdf", "mergepdf", "splitpdf", "compresspdf", "pdf2img"]

/-- The document a call writes with `fs.writeFileSync`, if it is such a call. -/
def writtenDoc : Effect → Option PdfDoc
  | .writeFileSync _ doc => some doc
  | _ => none

/-- The documents a trace writes with `fs.writeFileSync`, in program order. -/
def documents (t : List Effect) : List PdfDoc := t.filterMap writtenDoc

/-- The archive entry a call appends with `archive.append`, if it is such a call: the entry
name and the document. -/
def appended : Effect → Option (String × PdfDoc)
  | .archiveAppend name doc => some (name, doc)
  | _ => none

/-- The entries a trace appends to the archive, in program order. -/
def entries (t : List Effect) : List (String × PdfDoc) := t.filterMap appended

/-- A file the `img2pdf` recipe embeds: its declared content type is `image/jpeg` or
`image/png`. -/
def supported (file : UploadedFile) : Bool :=
  decide (file.mimetype = "image/jpeg") || decide (file.mimetype = "image/png")

/-- The value of a decimal numeral, digit by digit from the left. -/
def decimalValue (cs : List Char) : Nat :=
  cs.foldl (fun acc c => acc * 10 + (c.toNat - 48)) 0

/-- The quiet world with files and documents in it: a file holds the length of its path,
and loads as a document with one page of that width and height. -/
def libraryWorld : World :=
  { quietWorld with
    readFileSync := fun p => .ok [p.length]
    pdfLoad := fun bytes => .ok (bytes.map fun n => ⟨n, n, []⟩) }

/-- The quiet world in which every document loads as three pages of different sizes. -/
def bookWorld : World :=
  { quietWorld with pdfLoad := fun _ => .ok [⟨1, 1, []⟩, ⟨2, 2, []⟩, ⟨3, 3, []⟩] }

/-- The quiet world after a render: the temp directory holds two pages rendered from the
upload `u1` among other files. -/
def renderedWorld : World :=
  { quietWorld with
    readdirSync := fun _ => .ok ["other.png", "u1.txt", "u1_p1.png", "u1_p2.png"]
    recognize := fun p => .ok ("text of " ++ p) }

/-- The quiet world in which the external converter exits with an error after printing to
its standard error. -/
def brokenWorld : World :=
  { quietWorld with
    exec := fun _ => ⟨some (.error "Error" "Command failed"), "", "soffice: not found"⟩ }

/-- The quiet world in which the recognizer throws. -/
def unreadableWorld : World :=
  { quietWorld with recognize := fun _ => .error (.error "Error" "cannot read image") }

/-- The allow-list of the `ocr` kind in the validation table. -/
def ocrAllowed : List String := [".jpg", ".jpeg", ".png", ".pdf", "image/", "application/pdf"]

/-- The file a call adds to the archive with `archive.file(path, { name })`, if it is such a
call: the path read and the entry name. -/
def archivedFile : Effect → Option (String × String)
  | .archiveFile p name => some (p, name)
  | _ => none

/-- The files a trace adds to the archive, in program order. -/
def archived (t : List Effect) : List (String × String) := t.filterMap archivedFile

/-- The quiet world in which no document can be parsed. -/
def corruptWorld : World :=
  { quietWorld with pdfLoad := fun _ => .error (.error "Error" "Failed to parse PDF document") }

/-! ## The Express application -/

/-- An error handed to `next(err)` by a middleware: its `code` and `message`. -/
structure NextError where
  code : String
  message : String
  deriving DecidableEq, Repr

/-- The route a request's method and path select. -/
inductive Target where
  | root
  | privacy
  | download (filename : String)
  | convert
  | unmatched
  deriving DecidableEq, Repr

/-- An incoming request: the source IP, the route it selects, the sizes in bytes of the
files of its multipart body in order, and what multer hands to the handler when it accepts
the upload. -/
structure HttpRequest where
  ip : String
  target : Target
  fileSizes : List Nat
  body : Request
  deriving DecidableEq, Repr

/-- The layers of the application, one per `app.use`, `app.get` and `app.post` call. -/
inductive Layer where
  | limiter
  | fileSizeError
  | getRoot
  | getPrivacy
  | getDownload
  | postConvert
  deriving DecidableEq, Repr

/-- The layers in the order `server.js` registers them: `app.use(limiter)` at line 27, the
four-argument error middleware at line 30, then the routes at lines 241, 658, 697, 712. -/
def appStack : List Layer :=
  [.limiter, .fileSizeError, .getRoot, .getPrivacy, .getDownload, .postConvert]

/-- The `fileSize` limit of the multer configuration at `server.js:17`. -/
def fileSizeLimit : Nat := 10 * 1024 * 1024

/-- The middleware `upload.array('files', 10)` on the files of a body, from the file at the
given index on: the error it hands to `next`, if any. A file beyond the tenth is an unexpected
file; a file longer than the limit is too large. -/
def uploadError : Nat → List Nat → Option NextError
  | _, [] => none
  | index, size :: rest =>
      if index ≥ 10 then some ⟨"LIMIT_UNEXPECTED_FILE", "Unexpected field"⟩
      else if size > fileSizeLimit then some ⟨"LIMIT_FILE_SIZE", "File too large"⟩
      else uploadError (index + 1) rest

/-- The options passed to `rateLimit` at `server.js:21`. -/
structure LimiterOptions where
  windowMs : Nat
  max : Nat
  message : String
  deriving DecidableEq, Repr

/-- The object literal at `server.js:21`. -/
def limiterOptions : LimiterOptions :=
  ⟨60 * 60 * 1000, 15, "Too many requests from this IP, please try again in an hour."⟩

/-- How the application answers a request. -/
inductive AppOutcome where
  | rateLimited (status : Nat) (message : String)
  | fileTooLarge (status : Nat) (page : Page)
  | home
  | privacy
  | download (o : DownloadOutcome)
  | convert (run : List Effect × Outcome)
  | finalHandler (status : Nat) (err : Option NextError)
  deriving DecidableEq, Repr

/-- Express's walk through the layers from the current one on, with the error handed to
`next` so far, if any. With an error pending only four-argument middleware is called, and
only what is registered after the layer that failed; without one, four-argument middleware is
passed over. When the layers are exhausted Express's final handler answers: 404 when nothing
answered, 500 for an error nobody handled. `limited` is the limiter's verdict on this
request. -/
def handle (L : Lib) (w : World) (limited : Bool) :
    List Layer → Option NextError → HttpRequest → AppOutcome
  | [], none, _ => .finalHandler 404 none
  | [], some err, _ => .finalHandler 500 (some err)
  | .limiter :: rest, none, req =>
      if limited then .rateLimited 429 limiterOptions.message
      else handle L w limited rest none req
  | .fileSizeError :: rest, none, req => handle L w limited rest none req
  | .fileSizeError :: rest, some error, req =>
      if error.code = "LIMIT_FILE_SIZE" then
        .fileTooLarge 200 (.errorPage "File too large. Maximum file size is 10MB.")
      else handle L w limited rest (some error) req
  | .getRoot :: rest, none, req =>
      if req.target = .root then .home else handle L w limited rest none req
  | .getPrivacy :: rest, none, req =>
      if req.target = .privacy then .privacy else handle L w limited rest none req
  | .getDownload :: rest, none, req =>
      match req.target with
      | .download filename => .download (download L w filename)
      | _ => handle L w limited rest none req
  | .postConvert :: rest, none, req =>
      if req.target = .convert then
        match uploadError 0 req.fileSizes with
        | some err => handle L w limited rest (some err) req
        | none => .convert (convert L w req.body)
      else handle L w limited rest none req
  | _ :: rest, some err, req => handle L w limited rest (some err) req

/-- Modelled from the spec: the request counter of the rate limiter, whose code (the
`express-rate-limit` package) is not under `src/`: "fixed window, 15 requests per source IP
per rolling hour". The state is the number of requests each source IP has made in the
current window. -/
def Hits : Type := String → Nat

/-- Modelled from the spec: the counter at the start of a window. -/
def Hits.fresh : Hits := fun _ => 0

/-- Modelled from the spec: the counter after one more request of a source IP. -/
def Hits.incr (h : Hits) (ip : String) : Hits := fun k => if k = ip then h k + 1 else h k

/-- Modelled from the spec: the limiter's verdict, "the 16th request from one source IP
within a rolling hour is rejected": a request is over the limit when, counting itself, its
source IP has made more than `max` requests in the window. -/
def overLimit (o : LimiterOptions) (h : Hits) (ip : String) : Bool := decide (o.max < h ip + 1)

/-- The counter after the given requests of one window. -/
def countsAfter (h : Hits) (reqs : List HttpRequest) : Hits :=
  reqs.foldl (fun h req => h.incr req.ip) h

/-- The application's answer to a request, given the requests served before it in the same
window. -/
def serve (L : Lib) (w : World) (before : List HttpRequest) (req : HttpRequest) : AppOutcome :=
  handle L w (overLimit limiterOptions (countsAfter Hits.fresh before) req.ip) appStack none req

/-- The nine kinds that produce a file, each with the text its recipe puts before and after
the timestamp in the output file name (`server.js:748`, `767`, `799`, `826`, `869`, `886`,
`912`, `926`, `971`). -/
def artifactParts : List (String × String × String) :=
  [("pdf2word", "converted_", ".docx"),
   ("word2pdf", "converted_", ".pdf"),
   ("img2pdf", "converted_images_", ".pdf"),
   ("pdf2img", "pdf_images_", ".zip"),
   ("excel2pdf", "converted_excel_", ".pdf"),
   ("pdf2excel", "converted_", ".xlsx"),
   ("mergepdf", "merged_pdfs_", ".pdf"),
   ("splitpdf", "split_pages_", ".zip"),
   ("compresspdf", "compressed_", ".pdf")]

/-- The output file name of a kind for a creation timestamp: the kind's leading text, the
decimal timestamp, the kind's extension. -/
def artifactName (kind : String) (now : Nat) : Option String :=
  match artifactParts.lookup kind with
  | some (leading, extension) => some (leading ++ toString now ++ extension)
  | none => none

/-- The characters of a name up to its first digit. -/
def leadingPart (cs : List Char) : List Char := cs.takeWhile (fun c => !c.isDigit)

/-- The digits of a name that follow its leading part. -/
def digitPart (cs : List Char) : List Char :=
  (cs.dropWhile (fun c => !c.isDigit)).takeWhile Char.isDigit

/-- What follows the digits of a name. -/
def trailingPart (cs : List Char) : List Char :=
  (cs.dropWhile (fun c => !c.isDigit)).dropWhile Char.isDigit

/-- The allow-list of the `img2pdf` kind in the validation table. -/
def img2pdfAllowed : List String := [".jpg", ".jpeg", ".png", ".gif", "image/"]

/-! ## POSIX paths -/

/-- The segments of a path: the runs of characters between its `/` characters. -/
def segments : List Char → List (List Char)
  | [] => [[]]
  | c :: cs =>
      if c = '/' then [] :: segments cs
      else
        match segments cs with
        | s :: ss => (c :: s) :: ss
        | [] => [[c]]

/-- One segment of Node's `normalizeString`, on the segments kept so far (last one first):
an empty segment and `.` are dropped; `..` removes the last segment kept, unless there is
none or it is itself `..`, in which case `..` is kept when the path is relative; any other
segment is kept. -/
def resolveSegment (allowAboveRoot : Bool) (kept : List (List Char)) (seg : List Char) :
    List (List Char) :=
  if seg = [] ∨ seg = ['.'] then kept
  else if seg = ['.', '.'] then
    match kept with
    | top :: below =>
        if top = ['.', '.'] then (if allowAboveRoot then seg :: kept else kept) else below
    | [] => if allowAboveRoot then [seg] else []
  else seg :: kept

/-- Segments joined by `/`. -/
def joinSegments : List (List Char) → List Char
  | [] => []
  | [s] => s
  | s :: t :: rest => s ++ '/' :: joinSegments (t :: rest)

/-- Node's `path.posix.normalize`. -/
def posixNormalize (path : String) : String :=
  if path = "" then "."
  else
    let isAbsolute : Bool := decide (path.data.head? = some '/')
    let trailingSeparator : Bool := decide (path.data.getLast? = some '/')
    let res := joinSegments
      ((segments path.data).foldl (resolveSegment (!isAbsolute)) []).reverse
    if res = [] then (if isAbsolute then "/" else if trailingSeparator then "./" else ".")
    else
      String.mk ((if isAbsolute then ['/'] else []) ++ res ++
        (if trailingSeparator then ['/'] else []))

/-- Node's `path.posix.join` of two paths. -/
def posixJoin (a b : String) : String :=
  if a = "" then (if b = "" then "." else posixNormalize b)
  else if b = "" then posixNormalize a
  else posixNormalize (a ++ "/" ++ b)

/-- The library for plain file names, with Node's POSIX `path.join`. -/
def posixLib : Lib := { plainLib with join := posixJoin }

/-- A name of one path segment: not empty, without `/`, and neither `.` nor `..`. -/
def plainSegment (cs : List Char) : Bool :=
  decide (cs ≠ []) && decide ('/' ∉ cs) && decide (cs ≠ ['.']) && decide (cs ≠ ['.', '.'])

/-- Whether `path` is a direct child of the directory `dir`: `dir`, a `/`, and one plain
segment. -/
def directChild (dir path : String) : Bool :=
  (dir.data ++ ['/']).isPrefixOf path.data &&
    plainSegment (path.data.drop (dir.data.length + 1))

/-! ## The file system -/

/-- What sits at a directory entry. -/
inductive Node where
  | file (content : Bytes)
  | directory
  deriving DecidableEq, Repr

/-- A state of the file system, as far as `fs.unlink` looks at it. `resolve` gives the
directory entry a path string designates: path resolution is the platform's, and two
spellings such as `/tmp/u1` and `/tmp/./u1` designate one entry. `node` is what sits at an
entry, if anything. `refusal` is the error code with which the system refuses to unlink the
entry, if it does (`EACCES` or `EPERM` for want of permission, `EBUSY` for a file in use). -/
structure FileSystem where
  resolve : String → String
  node : String → Option Node
  refusal : String → Option String

/-- Whether an entry holds a file. -/
def isFile : Option Node → Bool
  | some (.file _) => true
  | _ => false

/-- The call `fs.unlink(p, callback)` on a state: the error the callback gets, if any, and
the state afterwards. The entry that `p` designates is removed when it holds a file and the
system does not refuse; a missing entry, a directory and a refusal are errors that leave the
state as it was. -/
def fsUnlink (fs : FileSystem) (p : String) : Except JsVal Unit × FileSystem :=
  match fs.node (fs.resolve p) with
  | none => (.error (.error "Error" "ENOENT: no such file or directory, unlink"), fs)
  | some .directory =>
      (.error (.error "Error" "EISDIR: illegal operation on a directory, unlink"), fs)
  | some (.file _) =>
      match fs.refusal (fs.resolve p) with
      | some code => (.error (.error "Error" (code ++ ": operation not permitted, unlink")), fs)
      | none =>
          (.ok (), { fs with node := fun k => if k = fs.resolve p then none else fs.node k })

/-- What a recorded `fs.unlink(p, () => {})` does to the file system: the callback drops the
error. Other calls are not followed here. -/
def applyUnlink (fs : FileSystem) : Effect → FileSystem
  | .unlink p => (fsUnlink fs p).2
  | _ => fs

/-- The file system once the unlinks started by `cleanup(paths)` have completed, taken in
the order in which they were started (the order does not matter, `cleanupFs_perm`). -/
def cleanupFs (fs : FileSystem) (paths : List String) : FileSystem :=
  (cleanup paths).trace.foldl applyUnlink fs

/-- A file system with POSIX path resolution: two uploads and another file in the temp
directory, and a directory; the upload `u2` is in use, and the system refuses to unlink
it. -/
def smallFs : FileSystem where
  resolve := posixNormalize
  node := fun k =>
    if k = "/tmp/u1" then some (.file [1, 2, 3])
    else if k = "/tmp/u2" then some (.file [5, 6])
    else if k = "/tmp/d" then some .directory
    else if k = "/tmp/keep" then some (.file [4])
    else none
  refusal := fun k => if k = "/tmp/u2" then some "EBUSY" else none

/-! ## Traced computations: calculation rules -/

theorem Act.pure_eq {α : Type} (a : α) : (pure a : Act α) = ⟨[], .ok a⟩ := rfl

theorem Act.bind_eq {α β : Type} (m : Act α) (f : α → Act β) : (m >>= f) = Act.bind m f := rfl

theorem Act.map_eq {α β : Type} (g : α → β) (m : Act α) :
    (g <$> m) = Act.bind m (fun a => ⟨[], .ok (g a)⟩) := rfl

theorem Act.bind_ok {α β : Type} (t : List Effect) (a : α) (f : α → Act β) :
    Act.bind ⟨t, .ok a⟩ f = ⟨t ++ (f a).trace, (f a).result⟩ := rfl

theorem Act.bind_error {α β : Type} (t : List Effect) (e : JsVal) (f : α → Act β) :
    Act.bind ⟨t, .error e⟩ f = ⟨t, .error e⟩ := rfl

theorem Act.tryCatch_ok {α : Type} (t : List Effect) (a : α) (h : JsVal → Act α) :
    Act.tryCatch ⟨t, .ok a⟩ h = ⟨t, .ok a⟩ := rfl

theorem Act.tryCatch_error {α : Type} (t : List Effect) (e : JsVal) (h : JsVal → Act α) :
    Act.tryCatch ⟨t, .error e⟩ h = ⟨t ++ (h e).trace, (h e).result⟩ := rfl

theorem Act.eta {α : Type} (m : Act α) : (⟨m.trace, m.result⟩ : Act α) = m := rfl

/-! ## The file type validator -/

theorem startsWith_iff (s p : String) : startsWith s p = true ↔ ∃ rest : String, s = p ++ rest := by
  unfold startsWith
  rw [List.isPrefixOf_iff_prefix]
  constructor
  · rintro ⟨t, ht⟩
    exact ⟨⟨t⟩, String.ext (by simp [ht])⟩
  · rintro ⟨rest, rfl⟩
    exact ⟨rest.data, by simp⟩

theorem includes_iff (s p : String) :
    includes s p = true ↔ ∃ before after : String, s = before ++ p ++ after := by
  unfold includes
  rw [decide_eq_true_iff]
  constructor
  · rintro ⟨a, b, hab⟩
    exact ⟨⟨a⟩, ⟨b⟩, String.ext (by simp [← hab])⟩
  · rintro ⟨a, b, rfl⟩
    exact ⟨a.data, b.data, by simp⟩

/-- C3: `validateFileType` accepts a file exactly when some allow-list entry either starts
with a dot and equals the lower-cased extension of the original name, or does not start with
a dot and occurs as a substring of the declared content type. -/
theorem validateFileType_iff (L : Lib) (file : UploadedFile) (allowedTypes : List String) :
    validateFileType L file allowedTypes = true ↔
      ∃ type ∈ allowedTypes,
        ((∃ rest : String, type = "." ++ rest) ∧
            type = L.toLowerCase (L.extname file.originalname)) ∨
        ((¬ ∃ rest : String, type = "." ++ rest) ∧
            ∃ before after : String, file.mimetype = before ++ type ++ after) := by
  unfold validateFileType
  simp only [List.any_eq_true]
  constructor
  · rintro ⟨type, hmem, h⟩
    refine ⟨type, hmem, ?_⟩
    by_cases hd : startsWith type "." = true
    · rw [if_pos hd, decide_eq_true_iff] at h
      exact Or.inl ⟨(startsWith_iff _ _).1 hd, h.symm⟩
    · rw [if_neg hd] at h
      exact Or.inr ⟨fun hr => hd ((startsWith_iff _ _).2 hr), (includes_iff _ _).1 h⟩
  · rintro ⟨type, hmem, h⟩
    refine ⟨type, hmem, ?_⟩
    rcases h with ⟨hd, he⟩ | ⟨hd, hi⟩
    · rw [if_pos ((startsWith_iff _ _).2 hd), decide_eq_true_iff]
      exact he.symm
    · rw [if_neg (fun hs => hd ((startsWith_iff _ _).1 hs))]
      exact (includes_iff _ _).2 hi

/-! ## Validation failure -/

theorem validationRules_of_lookup (type : String) (allowedTypes : List String)
    (h : validationTable.lookup type = some allowedTypes) :
    validationRules (some type) = .rules allowedTypes := by
  simp only [validationRules, h]

theorem cleanup_trace (paths : List String) : (cleanup paths).trace = paths.map Effect.unlink :=
  rfl

/-- C2: for each of the ten kinds (the keys of the validation table) and every non-empty
batch, if some file of the batch fails `validateFileType` against the kind's allow-list, the
handler unlinks the paths of all files of the batch, answers (status 200) with the
`Invalid file type for <type>` error page, and makes no other call: no external command, no
library call, no file written. -/
theorem convert_invalid_batch (L : Lib) (w : World) (type : String)
    (allowedTypes : List String) (files : List UploadedFile)
    (hkind : validationTable.lookup type = some allowedTypes) (hne : files ≠ [])
    (hbad : ∃ file ∈ files, validateFileType L file allowedTypes = false) :
    convert L w ⟨some type, files⟩ =
      (files.map (fun f => Effect.unlink f.path),
        .replied 200 (.errorPage
          ("Invalid file type for " ++ type ++ ". Please upload the correct file format."))) := by
  obtain ⟨bad, hmem, hfalse⟩ := hbad
  cases files with
  | nil => exact absurd rfl hne
  | cons file0 rest =>
    have hany : (file0 :: rest).any (fun file => !validateFileType L file allowedTypes) = true :=
      List.any_eq_true.2 ⟨bad, hmem, by simp [hfalse]⟩
    simp only [convert, validationRules_of_lookup type allowedTypes hkind]
    rw [if_pos hany]
    simp [finish, Act.bind_eq, Act.bind, Act.pure_eq, cleanup, Act.emits, send,
      Function.comp_def]

/-- C2, at a concrete request: a `pdf2word` batch whose second file is a text file. -/
theorem convert_invalid_batch_witness :
    convert plainLib quietWorld ⟨some "pdf2word",
        [⟨"a.pdf", "application/pdf", "/tmp/u1"⟩, ⟨"b.txt", "text/plain", "/tmp/u2"⟩]⟩ =
      ([.unlink "/tmp/u1", .unlink "/tmp/u2"],
        .replied 200 (.errorPage
          "Invalid file type for pdf2word. Please upload the correct file format.")) :=
  convert_invalid_batch plainLib quietWorld "pdf2word" [".pdf", "application/pdf"]
    [⟨"a.pdf", "application/pdf", "/tmp/u1"⟩, ⟨"b.txt", "text/plain", "/tmp/u2"⟩]
    (by decide) (by decide) ⟨⟨"b.txt", "text/plain", "/tmp/u2"⟩, by decide, by decide⟩

/-! ## The converter recipes -/

/-- C1, at a `pdf2word` request with two valid uploads and a converter that succeeds: the
handler answers with the success page, the first upload is unlinked once and the second
upload is never unlinked. -/
theorem convert_pdf2word_second_upload_survives :
    (convert plainLib convertedWorld ⟨some "pdf2word",
      [⟨"a.pdf", "application/pdf", "/tmp/u1"⟩, ⟨"b.pdf", "application/pdf", "/tmp/u2"⟩]⟩).2 =
        .replied 200 (.successPage "converted_1700000000000.docx"
          "/download/converted_1700000000000.docx" "PDF to Word") ∧
    unlinkCount (convert plainLib convertedWorld ⟨some "pdf2word",
      [⟨"a.pdf", "application/pdf", "/tmp/u1"⟩, ⟨"b.pdf", "application/pdf", "/tmp/u2"⟩]⟩).1
        "/tmp/u1" = 1 ∧
    unlinkCount (convert plainLib convertedWorld ⟨some "pdf2word",
      [⟨"a.pdf", "application/pdf", "/tmp/u1"⟩, ⟨"b.pdf", "application/pdf", "/tmp/u2"⟩]⟩).1
        "/tmp/u2" = 0 := by
  decide

theorem officeRecipe_missing_output (L : Lib) (w : World) (file0 : UploadedFile)
    (format outputFilename conversionType : String)
    (hexec : (w.exec (officeCommand w format file0.path)).err = none)
    (hmissing : w.existsSync (file0.path ++ "." ++ format) = false) :
    officeRecipe L w file0 format outputFilename conversionType =
      ⟨[.exec (officeCommand w format file0.path), .existsSync (file0.path ++ "." ++ format),
          .unlink file0.path],
        .ok (send (.successPage outputFilename ("/download/" ++ outputFilename)
          conversionType))⟩ := by
  have hrun : execPromise (w.exec (officeCommand w format file0.path)) =
      .ok (w.exec (officeCommand w format file0.path)).stdout := by
    simp only [execPromise, hexec]
  simp only [officeRecipe, runExec, Act.call, hrun, hmissing, Act.bind_eq, Act.bind,
    Act.pure_eq, cleanup, Act.emits, List.map]
  rfl

theorem guarded_of_ok (L : Lib) (w : World) (type : Option String) (file0 : UploadedFile)
    (files : List UploadedFile) (t : List Effect) (reply : Reply)
    (h : dispatch L w type file0 files = ⟨t, .ok reply⟩) :
    finish (guarded L w type file0 files) = (t, .replied reply.status reply.page) := by
  simp only [guarded, h, Act.tryCatch_ok, finish]

theorem convert_of_valid (L : Lib) (w : World) (type : String) (allowedTypes : List String)
    (file0 : UploadedFile) (rest : List UploadedFile)
    (hkind : validationTable.lookup type = some allowedTypes)
    (hvalid : ∀ file ∈ file0 :: rest, validateFileType L file allowedTypes = true) :
    convert L w ⟨some type, file0 :: rest⟩ =
      finish (guarded L w (some type) file0 (file0 :: rest)) := by
  have hany : (file0 :: rest).any (fun file => !validateFileType L file allowedTypes) = false := by
    rw [List.any_eq_false]
    intro file hmem
    simp [hvalid file hmem]
  simp only [convert, validationRules_of_lookup type allowedTypes hkind]
  rw [if_neg (by simp [hany])]

/-- C4, what the code does: for each of the four converter kinds, when the converter exits
successfully but no file exists at the predicted output path (the input path with the new
extension appended), the recipe makes no rename call, and the handler nevertheless answers
with the success page (status 200), whose download link names the file that was never
created. -/
theorem convert_missing_output (L : Lib) (w : World) (type format : String)
    (allowedTypes : List String) (file0 : UploadedFile) (rest : List UploadedFile)
    (hkind : (type, format) ∈ officeKinds)
    (hrules : validationTable.lookup type = some allowedTypes)
    (hvalid : ∀ file ∈ file0 :: rest, validateFileType L file allowedTypes = true)
    (hexec : (w.exec (officeCommand w format file0.path)).err = none)
    (hmissing : w.existsSync (file0.path ++ "." ++ format) = false) :
    renames (convert L w ⟨some type, file0 :: rest⟩).1 = [] ∧
      ∃ name label, (convert L w ⟨some type, file0 :: rest⟩).2 =
        .replied 200 (.successPage name ("/download/" ++ name) label) := by
  rw [convert_of_valid L w type allowedTypes file0 rest hrules hvalid]
  simp only [officeKinds, List.mem_cons, Prod.mk.injEq, List.mem_singleton, List.mem_nil_iff,
    or_false] at hkind
  rcases hkind with ⟨rfl, rfl⟩ | ⟨rfl, rfl⟩ | ⟨rfl, rfl⟩ | ⟨rfl, rfl⟩
  all_goals
    rw [guarded_of_ok L w _ file0 _ _ _
      (by
        simp only [dispatch]
        first
          | rw [if_pos (by decide)]
          | rw [if_neg (by decide), if_pos (by decide)]
          | rw [if_neg (by decide), if_neg (by decide), if_neg (by decide), if_neg (by decide),
              if_pos (by decide)]
          | rw [if_neg (by decide), if_neg (by decide), if_neg (by decide), if_neg (by decide),
              if_neg (by decide), if_pos (by decide)]
        exact officeRecipe_missing_output L w file0 _ _ _ hexec hmissing)]
    exact ⟨rfl, _, _, rfl⟩

/-- C4, at a concrete request: `pdf2word` on one PDF, in the world where the converter
succeeds and leaves no file. -/
theorem convert_missing_output_witness :
    renames (convert plainLib quietWorld
        ⟨some "pdf2word", [⟨"a.pdf", "application/pdf", "/tmp/u1"⟩]⟩).1 = [] ∧
      ∃ name label, (convert plainLib quietWorld
        ⟨some "pdf2word", [⟨"a.pdf", "application/pdf", "/tmp/u1"⟩]⟩).2 =
          .replied 200 (.successPage name ("/download/" ++ name) label) :=
  convert_missing_output plainLib quietWorld "pdf2word" "docx" [".pdf", "application/pdf"]
    ⟨"a.pdf", "application/pdf", "/tmp/u1"⟩ [] (by decide) (by decide) (by decide)
    (by decide) (by decide)

/-! ## The result artifact -/

theorem Act.bind_of_ok {α β : Type} {m : Act α} {a : α} (h : m.result = .ok a)
    (f : α → Act β) : Act.bind m f = ⟨m.trace ++ (f a).trace, (f a).result⟩ := by
  simp only [Act.bind, h]

theorem Act.bind_of_error {α β : Type} {m : Act α} {e : JsVal} (h : m.result = .error e)
    (f : α → Act β) : Act.bind m f = ⟨m.trace, .error e⟩ := by
  simp only [Act.bind, h]

theorem written_append (s t : List Effect) : written (s ++ t) = written s ++ written t := by
  simp only [written, List.filterMap_append]

theorem written_nil : written [] = [] := rfl

theorem written_cons (e : Effect) (t : List Effect) :
    written (e :: t) = (writtenPath e).toList ++ written t := by
  cases h : writtenPath e <;> simp [written, List.filterMap_cons, h]

theorem written_unlinks (paths : List String) : written (paths.map Effect.unlink) = [] := by
  induction paths with
  | nil => rfl
  | cons p ps ih => simp [written_cons, writtenPath, ih]

theorem written_img2pdfLoop (w : World) (files : List UploadedFile) (doc : PdfDoc) :
    written (img2pdfLoop w files doc).trace = [] := by
  induction files generalizing doc with
  | nil => rfl
  | cons file rest ih =>
    simp only [img2pdfLoop, Act.bind_eq, Act.map_eq, Act.call, Act.pure_eq]
    cases w.readFileSync file.path with
    | error e => simp [Act.bind, written_cons, written_nil, writtenPath]
    | ok bytes =>
      by_cases hj : file.mimetype = "image/jpeg"
      · cases hje : w.embedJpg bytes <;>
          simp [Act.bind, written_cons, written_append, written_nil, writtenPath, hj, hje, ih]
      · by_cases hp : file.mimetype = "image/png"
        · cases hpe : w.embedPng bytes <;>
            simp [Act.bind, written_cons, written_append, written_nil, writtenPath, hj, hp,
              hpe, ih]
        · simp [Act.bind, written_cons, written_append, written_nil, writtenPath, hj, hp, ih]

theorem img2pdf_artifact (L : Lib) (w : World) (files : List UploadedFile) (reply : Reply)
    (name url label : String) (h : (img2pdf L w files).result = .ok reply)
    (hpage : reply.page = .successPage name url label) :
    written (img2pdf L w files).trace = [L.join w.tmpdir name] ∧ url = "/download/" ++ name := by
  revert h
  simp only [img2pdf, Act.bind_eq]
  cases hloop : (img2pdfLoop w files []).result with
  | error e => rw [Act.bind_of_error hloop]; intro h; cases h
  | ok doc =>
    rw [Act.bind_of_ok hloop]
    cases hw : w.writeFileSync (L.join w.tmpdir ("converted_images_" ++ timestamp w ++ ".pdf")) with
    | error e => simp [Act.bind, Act.call, hw]
    | ok u =>
      simp only [Act.bind, Act.call, hw, Act.pure_eq, cleanup, Act.emits, send, written_append,
        written_img2pdfLoop, written_unlinks, List.append_nil, List.nil_append]
      intro h
      injection h with h
      subst h
      simp only [Page.successPage.injEq] at hpage
      obtain ⟨rfl, rfl, -⟩ := hpage
      exact ⟨rfl, rfl⟩

theorem written_mergeLoop (w : World) (files : List UploadedFile) (doc : PdfDoc) :
    written (mergeLoop w files doc).trace = [] := by
  induction files generalizing doc with
  | nil => rfl
  | cons file rest ih =>
    simp only [mergeLoop, Act.bind_eq, Act.call, Act.lift]
    cases hr : w.readFileSync file.path with
    | error e => simp [Act.bind, written_cons, written_nil, writtenPath]
    | ok bytes =>
      cases hl : w.pdfLoad bytes with
      | error e => simp [Act.bind, hl, written_cons, written_nil, writtenPath]
      | ok srcPdf =>
        cases hc : copyPages srcPdf (getPageIndices srcPdf) <;>
          simp [Act.bind, hl, hc, written_cons, written_append, written_nil, writtenPath, ih]

theorem mergepdf_artifact (L : Lib) (w : World) (files : List UploadedFile) (reply : Reply)
    (name url label : String) (h : (mergepdf L w files).result = .ok reply)
    (hpage : reply.page = .successPage name url label) :
    written (mergepdf L w files).trace = [L.join w.tmpdir name] ∧ url = "/download/" ++ name := by
  revert h
  simp only [mergepdf, Act.bind_eq]
  cases hloop : (mergeLoop w files []).result with
  | error e => rw [Act.bind_of_error hloop]; intro h; cases h
  | ok doc =>
    rw [Act.bind_of_ok hloop]
    cases hw : w.writeFileSync (L.join w.tmpdir ("merged_pdfs_" ++ timestamp w ++ ".pdf")) with
    | error e => simp [Act.bind, Act.call, hw]
    | ok u =>
      simp only [Act.bind, Act.call, hw, Act.pure_eq, cleanup, Act.emits, send, written_append,
        written_mergeLoop, written_unlinks, List.append_nil, List.nil_append]
      intro h
      injection h with h
      subst h
      simp only [Page.successPage.injEq] at hpage
      obtain ⟨rfl, rfl, -⟩ := hpage
      exact ⟨rfl, rfl⟩

theorem written_splitLoop (srcPdf : PdfDoc) (indices : List Nat) :
    written (splitLoop srcPdf indices).trace = [] := by
  induction indices with
  | nil => rfl
  | cons i rest ih =>
    simp only [splitLoop, Act.bind_eq, Act.lift, Act.emit]
    cases copyPage srcPdf i <;>
      simp [Act.bind, written_cons, written_append, written_nil, writtenPath, ih]

theorem splitpdf_artifact (L : Lib) (w : World) (file0 : UploadedFile)
    (files : List UploadedFile) (reply : Reply)
    (name url label : String) (h : (splitpdf L w file0 files).result = .ok reply)
    (hpage : reply.page = .successPage name url label) :
    written (splitpdf L w file0 files).trace = [L.join w.tmpdir name] ∧
      url = "/download/" ++ name := by
  revert h
  simp only [splitpdf, Act.bind_eq, Act.call, Act.emit]
  cases hr : w.readFileSync file0.path with
  | error e => simp [Act.bind]
  | ok bytes =>
    cases hl : w.pdfLoad bytes with
    | error e => simp [Act.bind, hl]
    | ok srcPdf =>
      cases hloop : (splitLoop srcPdf (List.range srcPdf.length)).result with
      | error e => simp [Act.bind, hl, hloop]
      | ok u =>
        cases hfin : w.archiveFinalize
            (L.join w.tmpdir ("split_pages_" ++ timestamp w ++ ".zip")) with
        | error e => simp [Act.bind, hl, hloop, hfin]
        | ok u =>
          simp only [Act.bind, hl, hloop, hfin, Act.pure_eq, cleanup, Act.emits, send,
            written_append, written_cons, written_nil, writtenPath, written_splitLoop,
            written_unlinks, List.append_nil, List.nil_append, Option.toList]
          intro h
          injection h with h
          subst h
          simp only [Page.successPage.injEq] at hpage
          obtain ⟨rfl, rfl, -⟩ := hpage
          exact ⟨rfl, rfl⟩

theorem compresspdf_artifact (L : Lib) (w : World) (file0 : UploadedFile)
    (files : List UploadedFile) (reply : Reply)
    (name url label : String) (h : (compresspdf L w file0 files).result = .ok reply)
    (hpage : reply.page = .successPage name url label) :
    written (compresspdf L w file0 files).trace = [L.join w.tmpdir name] ∧
      url = "/download/" ++ name := by
  revert h
  simp only [compresspdf, Act.bind_eq, Act.call, Act.lift]
  cases hr : w.readFileSync file0.path with
  | error e => simp [Act.bind]
  | ok bytes =>
    cases hl : w.pdfLoad bytes with
    | error e => simp [Act.bind, hl]
    | ok srcPdf =>
      cases hc : copyPages srcPdf (getPageIndices srcPdf) with
      | error e => simp [Act.bind, hl, hc]
      | ok pages =>
        cases hw : w.writeFileSync
            (L.join w.tmpdir ("compressed_" ++ timestamp w ++ ".pdf")) with
        | error e => simp [Act.bind, hl, hc, hw]
        | ok u =>
          simp only [Act.bind, hl, hc, hw, Act.pure_eq, cleanup, Act.emits, send,
            written_append, written_cons, written_nil, writtenPath,
            written_unlinks, List.append_nil, List.nil_append, Option.toList]
          intro h
          injection h with h
          subst h
          simp only [Page.successPage.injEq] at hpage
          obtain ⟨rfl, rfl, -⟩ := hpage
          exact ⟨rfl, rfl⟩

theorem written_map_none {α : Type} (f : α → Effect) (h : ∀ a, writtenPath (f a) = none)
    (l : List α) : written (l.map f) = [] := by
  induction l with
  | nil => rfl
  | cons a l ih => simp [written_cons, h a, ih]

theorem pdf2img_artifact (L : Lib) (w : World) (file0 : UploadedFile)
    (files : List UploadedFile) (reply : Reply)
    (name url label : String) (h : (pdf2img L w file0 files).result = .ok reply)
    (hpage : reply.page = .successPage name url label) :
    written (pdf2img L w file0 files).trace = [L.join w.tmpdir name] ∧
      url = "/download/" ++ name := by
  revert h
  simp only [pdf2img, runExec, Act.bind_eq, Act.call, Act.emit]
  cases hx : execPromise (w.exec (renderCommand w file0.path)) with
  | error e =>
    simp only [Act.bind, Act.tryCatch, Act.pure_eq, send]
    intro h
    injection h with h
    subst h
    cases hpage
  | ok out =>
    cases hd : w.readdirSync w.tmpdir with
    | error e =>
      simp only [Act.bind, Act.tryCatch, Act.pure_eq, send, hd]
      intro h
      injection h with h
      subst h
      cases hpage
    | ok listing =>
      by_cases hlen : (listing.filter
          (isRendered (L.basename file0.path (L.extname file0.path)))).length > 0
      · cases hfin : w.archiveFinalize
            (L.join w.tmpdir ("pdf_images_" ++ timestamp w ++ ".zip")) with
        | error e =>
          simp only [Act.bind, Act.tryCatch, Act.pure_eq, send, hd, hlen, hfin, if_true,
            Act.emits]
          intro h
          injection h with h
          subst h
          cases hpage
        | ok u =>
          simp only [Act.bind, Act.tryCatch, Act.pure_eq, send, hd, hlen, hfin, if_true,
            Act.emits, cleanup, written_append, written_cons, written_nil, writtenPath,
            written_unlinks, List.append_nil, List.nil_append, Option.toList]
          intro h
          injection h with h
          subst h
          simp only [Page.successPage.injEq] at hpage
          obtain ⟨rfl, rfl, -⟩ := hpage
          rw [written_map_none (fun pngFile => Effect.archiveFile (L.join w.tmpdir pngFile) pngFile)
              (fun _ => rfl),
            written_map_none (fun pngFile => Effect.unlinkSync (L.join w.tmpdir pngFile))
              (fun _ => rfl)]
          exact ⟨rfl, rfl⟩
      · simp only [Act.bind, Act.tryCatch, Act.pure_eq, send, hd, hlen, if_false]
        intro h
        injection h with h
        subst h
        cases hpage

theorem dispatch_img2pdf (L : Lib) (w : World) (file0 : UploadedFile)
    (files : List UploadedFile) : dispatch L w (some "img2pdf") file0 files = img2pdf L w files := by
  simp [dispatch]

theorem dispatch_pdf2img (L : Lib) (w : World) (file0 : UploadedFile)
    (files : List UploadedFile) :
    dispatch L w (some "pdf2img") file0 files = pdf2img L w file0 files := by
  simp [dispatch]

theorem dispatch_mergepdf (L : Lib) (w : World) (file0 : UploadedFile)
    (files : List UploadedFile) :
    dispatch L w (some "mergepdf") file0 files = mergepdf L w files := by
  simp [dispatch]

theorem dispatch_splitpdf (L : Lib) (w : World) (file0 : UploadedFile)
    (files : List UploadedFile) :
    dispatch L w (some "splitpdf") file0 files = splitpdf L w file0 files := by
  simp [dispatch]

theorem dispatch_compresspdf (L : Lib) (w : World) (file0 : UploadedFile)
    (files : List UploadedFile) :
    dispatch L w (some "compresspdf") file0 files = compresspdf L w file0 files := by
  simp [dispatch]

theorem dispatch_ocr (L : Lib) (w : World) (file0 : UploadedFile)
    (files : List UploadedFile) :
    dispatch L w (some "ocr") file0 files = ocr L w file0 files := by
  simp [dispatch]

theorem guarded_success (L : Lib) (w : World) (type : Option String) (file0 : UploadedFile)
    (files : List UploadedFile) (status : Nat) (name url label : String)
    (h : (finish (guarded L w type file0 files)).2 =
      .replied status (.successPage name url label)) :
    ∃ reply, (dispatch L w type file0 files).result = .ok reply ∧
      reply.page = .successPage name url label ∧
      (finish (guarded L w type file0 files)).1 = (dispatch L w type file0 files).trace := by
  revert h
  simp only [guarded]
  cases hd : (dispatch L w type file0 files).result with
  | error e =>
    simp only [Act.tryCatch, hd, finish, Act.bind_eq, Act.bind, Act.pure_eq, cleanup, Act.emits]
    intro h
    simp at h
  | ok reply =>
    simp only [Act.tryCatch, hd, finish]
    intro h
    injection h with h1 h2
    exact ⟨reply, rfl, h2, trivial⟩

/-- C5: for each of the kinds img2pdf, mergepdf, splitpdf, compresspdf and pdf2img, whenever
the handler answers with the success page, the handler has created exactly one file, at the
temp directory joined with the reported file name; the reported download URL is `/download/`
followed by that name; and the download route, asked for that name, looks at, streams and
later unlinks that very path. -/
theorem convert_success_artifact (L : Lib) (w : World) (type : String)
    (files : List UploadedFile) (status : Nat) (name url label : String)
    (hkind : type ∈ writingKinds)
    (hsuccess : (convert L w ⟨some type, files⟩).2 =
      .replied status (.successPage name url label)) :
    written (convert L w ⟨some type, files⟩).1 = [L.join w.tmpdir name] ∧
      url = "/download/" ++ name ∧
      downloadPath L w name = L.join w.tmpdir name ∧
      ∀ later : World, later.tmpdir = w.tmpdir →
        later.existsSync (L.join w.tmpdir name) = true →
        download L later name = .download (L.join w.tmpdir name) 5000 := by
  have hdl : ∀ later : World, later.tmpdir = w.tmpdir →
      later.existsSync (L.join w.tmpdir name) = true →
      download L later name = .download (L.join w.tmpdir name) 5000 := by
    intro later ht he
    simp only [download, downloadPath, ht, he, if_true]
  suffices hmain : written (convert L w ⟨some type, files⟩).1 = [L.join w.tmpdir name] ∧
      url = "/download/" ++ name from ⟨hmain.1, hmain.2, rfl, hdl⟩
  cases files with
  | nil => simp [convert] at hsuccess
  | cons file0 rest =>
    obtain ⟨allowedTypes, hrules⟩ : ∃ allowedTypes,
        validationRules (some type) = .rules allowedTypes := by
      simp only [writingKinds, List.mem_cons, List.mem_singleton, List.mem_nil_iff,
        or_false] at hkind
      rcases hkind with rfl | rfl | rfl | rfl | rfl <;> exact ⟨_, rfl⟩
    revert hsuccess
    simp only [convert, hrules]
    split
    · intro hsuccess
      simp [finish, Act.bind_eq, Act.bind, Act.pure_eq, cleanup, Act.emits, send] at hsuccess
    · intro hsuccess
      obtain ⟨reply, hres, hpage, htrace⟩ :=
        guarded_success L w (some type) file0 (file0 :: rest) status name url label hsuccess
      rw [htrace]
      simp only [writingKinds, List.mem_cons, List.mem_singleton, List.mem_nil_iff,
        or_false] at hkind
      rcases hkind with rfl | rfl | rfl | rfl | rfl
      · rw [dispatch_img2pdf] at hres ⊢
        exact img2pdf_artifact L w _ reply name url label hres hpage
      · rw [dispatch_mergepdf] at hres ⊢
        exact mergepdf_artifact L w _ reply name url label hres hpage
      · rw [dispatch_splitpdf] at hres ⊢
        exact splitpdf_artifact L w _ _ reply name url label hres hpage
      · rw [dispatch_compresspdf] at hres ⊢
        exact compresspdf_artifact L w _ _ reply name url label hres hpage
      · rw [dispatch_pdf2img] at hres ⊢
        exact pdf2img_artifact L w _ _ reply name url label hres hpage

/-- C5, at a concrete request: `img2pdf` on one JPEG. -/
theorem convert_success_artifact_witness :
    written (convert plainLib quietWorld
        ⟨some "img2pdf", [⟨"a.jpg", "image/jpeg", "/tmp/u1"⟩]⟩).1 =
      ["/tmp/converted_images_1700000000000.pdf"] ∧
    "/download/converted_images_1700000000000.pdf" =
      "/download/" ++ "converted_images_1700000000000.pdf" ∧
    downloadPath plainLib quietWorld "converted_images_1700000000000.pdf" =
      "/tmp/converted_images_1700000000000.pdf" ∧
    download plainLib convertedWorld "converted_images_1700000000000.pdf" =
      .download "/tmp/converted_images_1700000000000.pdf" 5000 :=
  have h := convert_success_artifact plainLib quietWorld "img2pdf"
    [⟨"a.jpg", "image/jpeg", "/tmp/u1"⟩] 200 "converted_images_1700000000000.pdf"
    "/download/converted_images_1700000000000.pdf" "Images to PDF" (by decide) (by decide)
  ⟨h.1, h.2.1, h.2.2.1, h.2.2.2 convertedWorld (by decide) (by decide)⟩

/-! ## pdf-lib on the page model -/

theorem foldl_addPage (doc : PdfDoc) (pages : List PdfPage) :
    pages.foldl addPage doc = doc ++ pages := by
  induction pages generalizing doc with
  | nil => simp
  | cons page pages ih => simp [ih, addPage]

theorem copyPage_append (before : List PdfPage) (page : PdfPage) (after : List PdfPage) :
    copyPage (before ++ page :: after) before.length = .ok page := by
  have h : (before ++ page :: after)[before.length]? = some page := by
    rw [List.getElem?_append_right (Nat.le_refl _)]
    simp
  simp only [copyPage, h]

theorem copyPages_range (before src : List PdfPage) :
    copyPages (before ++ src) (List.range' before.length src.length) = .ok src := by
  induction src generalizing before with
  | nil => rfl
  | cons page src ih =>
    have h := ih (before ++ [page])
    simp only [List.append_assoc, List.singleton_append, List.length_append,
      List.length_singleton] at h
    simp only [copyPages] at h ⊢
    simp only [List.length_cons, List.range'_succ, List.mapM_cons, copyPage_append, h]
    rfl

/-- Copying all pages of a document gives its pages, in order. -/
theorem copyPages_all (src : PdfDoc) : copyPages src (getPageIndices src) = .ok src := by
  have h := copyPages_range [] src
  simpa [getPageIndices, List.range_eq_range'] using h

/-! ## Merging -/

theorem documents_append (s t : List Effect) :
    documents (s ++ t) = documents s ++ documents t := by
  simp only [documents, List.filterMap_append]

theorem documents_cons (e : Effect) (t : List Effect) :
    documents (e :: t) = (writtenDoc e).toList ++ documents t := by
  cases h : writtenDoc e <;> simp [documents, List.filterMap_cons, h]

theorem documents_unlinks (paths : List String) : documents (paths.map Effect.unlink) = [] := by
  induction paths with
  | nil => rfl
  | cons p ps ih => simp [documents_cons, writtenDoc, ih]

theorem mergeLoop_loaded (w : World) (docOf : UploadedFile → PdfDoc)
    (files : List UploadedFile) (doc : PdfDoc)
    (hload : ∀ file ∈ files, ∃ bytes,
      w.readFileSync file.path = .ok bytes ∧ w.pdfLoad bytes = .ok (docOf file)) :
    (mergeLoop w files doc).result = .ok (doc ++ (files.map docOf).flatten) ∧
      documents (mergeLoop w files doc).trace = [] := by
  induction files generalizing doc with
  | nil => simp [mergeLoop, Act.pure_eq, documents]
  | cons file rest ih =>
    obtain ⟨bytes, hr, hl⟩ := hload file (List.mem_cons_self _ _)
    have ih' := ih (doc ++ docOf file) (fun f hf => hload f (List.mem_cons_of_mem _ hf))
    simp only [mergeLoop, Act.bind_eq, Act.call, Act.lift, Act.bind, hr, hl, copyPages_all,
      foldl_addPage, ih'.1, List.map_cons, List.flatten_cons, List.append_assoc]
    refine ⟨trivial, ?_⟩
    simp [documents_cons, writtenDoc, ih'.2]

theorem mergepdf_documents (L : Lib) (w : World) (docOf : UploadedFile → PdfDoc)
    (files : List UploadedFile)
    (hload : ∀ file ∈ files, ∃ bytes,
      w.readFileSync file.path = .ok bytes ∧ w.pdfLoad bytes = .ok (docOf file)) :
    documents (mergepdf L w files).trace = [save (files.map docOf).flatten true] := by
  obtain ⟨hres, hdocs⟩ := mergeLoop_loaded w docOf files [] hload
  simp only [mergepdf, Act.bind_eq]
  rw [Act.bind_of_ok hres]
  simp only [documents_append, hdocs, List.nil_append]
  cases w.writeFileSync (L.join w.tmpdir ("merged_pdfs_" ++ timestamp w ++ ".pdf")) <;>
    simp [Act.bind, Act.call, Act.pure_eq, cleanup, Act.emits, documents_cons,
      documents_append, documents_unlinks, writtenDoc, documents]

/-- C6, as amended: when every source file loads, the `mergepdf` recipe writes one document;
if some source has a page, it is the concatenation of the sources' page lists in input-file
order, each source's pages in their original order, so that N single-page sources give
exactly N pages and the page count is the sum of the source page counts; if no source has a
page, it is the single blank page that `save()` adds to a document without pages. -/
theorem mergepdf_concatenates (L : Lib) (w : World) (docOf : UploadedFile → PdfDoc)
    (files : List UploadedFile) (hne : files ≠ [])
    (hload : ∀ file ∈ files, ∃ bytes,
      w.readFileSync file.path = .ok bytes ∧ w.pdfLoad bytes = .ok (docOf file)) :
    ∃ out, documents (mergepdf L w files).trace = [out] ∧
      ((files.map docOf).flatten ≠ [] → out = (files.map docOf).flatten ∧
        out.length = ((files.map docOf).map List.length).sum) ∧
      ((∀ file ∈ files, (docOf file).length = 1) → out.length = files.length) ∧
      ((files.map docOf).flatten = [] → out = [defaultPage]) := by
  refine ⟨save (files.map docOf).flatten true, mergepdf_documents L w docOf files hload, ?_, ?_, ?_⟩
  · intro hpages
    have hlen : ((files.map docOf).flatten.length == 0) = false := by
      have hpos := List.length_pos.2 hpages
      rw [beq_eq_false_iff_ne]
      omega
    have hsave : save (files.map docOf).flatten true = (files.map docOf).flatten := by
      simp only [save, hlen, Bool.and_false]
      rfl
    rw [hsave]
    exact ⟨rfl, List.length_flatten _⟩
  · intro hone
    have hsum : ((files.map docOf).map List.length).sum = files.length := by
      clear hload hne
      induction files with
      | nil => rfl
      | cons file rest ih =>
        simp only [List.map_cons, List.sum_cons, List.length_cons,
          hone file (List.mem_cons_self _ _),
          ih (fun f hf => hone f (List.mem_cons_of_mem _ hf))]
        omega
    have hlen : (files.map docOf).flatten.length = files.length := by
      rw [List.length_flatten, hsum]
    have hpos : 0 < files.length := List.length_pos.2 hne
    have hlen0 : ((files.map docOf).flatten.length == 0) = false := by
      rw [hlen, beq_eq_false_iff_ne]
      omega
    simp only [save, hlen0, Bool.and_false]
    exact hlen
  · intro hempty
    simp [save, hempty, addPage]

/-- C6 as amended, at a concrete request: two single-page sources. -/
theorem mergepdf_concatenates_witness :
    ∃ out, documents (mergepdf plainLib libraryWorld
        [⟨"a.pdf", "application/pdf", "/tmp/u1"⟩, ⟨"b.pdf", "application/pdf", "/tmp/u22"⟩]).trace
        = [out] ∧ out = [⟨7, 7, []⟩, ⟨8, 8, []⟩] ∧ out.length = 2 :=
  have h := mergepdf_concatenates plainLib libraryWorld
    (fun file => [⟨file.path.length, file.path.length, []⟩])
    [⟨"a.pdf", "application/pdf", "/tmp/u1"⟩, ⟨"b.pdf", "application/pdf", "/tmp/u22"⟩]
    (by decide) (by
      intro file hfile
      exact ⟨[file.path.length], rfl, rfl⟩)
  h.elim fun out hout => ⟨out, hout.1, (hout.2.1 (by decide)).1, (hout.2.1 (by decide)).2⟩

/-- C6 as stated fails: one valid source without pages is merged into a document of one
page, while the concatenation of the sources' page lists is empty. -/
theorem mergepdf_empty_source_counterexample :
    quietWorld.readFileSync "/tmp/u1" = .ok [] ∧ quietWorld.pdfLoad [] = .ok [] ∧
      documents (convert plainLib quietWorld
        ⟨some "mergepdf", [⟨"a.pdf", "application/pdf", "/tmp/u1"⟩]⟩).1 = [[defaultPage]] := by
  decide

/-! ## Decimal numerals -/

theorem digitChar_value (k : Nat) (hk : k < 10) : (Nat.digitChar k).toNat - 48 = k := by
  interval_cases k <;> rfl

theorem decimalValue_append (cs : List Char) (c : Char) :
    decimalValue (cs ++ [c]) = decimalValue cs * 10 + (c.toNat - 48) := by
  simp [decimalValue, List.foldl_append]

theorem toDigitsCore_decimal (fuel : Nat) : ∀ (n : Nat) (ds : List Char), n < fuel →
    ∃ digits, Nat.toDigitsCore 10 fuel n ds = digits ++ ds ∧ decimalValue digits = n := by
  induction fuel with
  | zero => intro n ds h; omega
  | succ fuel ih =>
    intro n ds hn
    simp only [Nat.toDigitsCore]
    by_cases h0 : n / 10 = 0
    · rw [if_pos h0]
      refine ⟨[Nat.digitChar (n % 10)], rfl, ?_⟩
      have hv := digitChar_value (n % 10) (Nat.mod_lt _ (by decide))
      simp only [decimalValue, List.foldl_cons, List.foldl_nil, hv]
      omega
    · rw [if_neg h0]
      obtain ⟨digits, hd, hval⟩ := ih (n / 10) (Nat.digitChar (n % 10) :: ds) (by omega)
      refine ⟨digits ++ [Nat.digitChar (n % 10)], by simp [hd], ?_⟩
      rw [decimalValue_append, hval, digitChar_value (n % 10) (Nat.mod_lt _ (by decide))]
      omega

/-- The decimal text of a number determines the number. -/
theorem decimalValue_toString (n : Nat) : decimalValue (toString n).data = n := by
  obtain ⟨digits, hd, hval⟩ := toDigitsCore_decimal (n + 1) n [] (Nat.lt_succ_self n)
  have h : (toString n).data = digits := by
    show (Nat.repr n).data = digits
    simp only [Nat.repr, Nat.toDigits, List.asString, hd, List.append_nil]
  rw [h, hval]

theorem toString_nat_injective {m n : Nat} (h : toString m = toString n) : m = n := by
  have hm := decimalValue_toString m
  rw [h, decimalValue_toString n] at hm
  exact hm.symm

/-! ## Splitting -/

theorem pageName_injective {i j : Nat} (h : pageName i = pageName j) : i = j := by
  have hdata := congrArg String.data h
  simp only [pageName, String.data_append, List.append_assoc] at hdata
  have h1 := List.append_cancel_left hdata
  have h2 := List.append_cancel_right h1
  have h3 : toString (i + 1) = toString (j + 1) := String.ext h2
  have := toString_nat_injective h3
  omega

theorem entries_append (s t : List Effect) : entries (s ++ t) = entries s ++ entries t := by
  simp only [entries, List.filterMap_append]

theorem entries_cons (e : Effect) (t : List Effect) :
    entries (e :: t) = (appended e).toList ++ entries t := by
  cases h : appended e <;> simp [entries, List.filterMap_cons, h]

theorem entries_unlinks (paths : List String) : entries (paths.map Effect.unlink) = [] := by
  induction paths with
  | nil => rfl
  | cons p ps ih => simp [entries_cons, appended, ih]

theorem splitLoop_entries (src : PdfDoc) (indices : List Nat)
    (hbound : ∀ i ∈ indices, i < src.length) :
    (splitLoop src indices).result = .ok () ∧
      entries (splitLoop src indices).trace =
        indices.map (fun i => (pageName i, [src.getD i defaultPage])) := by
  induction indices with
  | nil => exact ⟨rfl, rfl⟩
  | cons i rest ih =>
    have hi := hbound i (List.mem_cons_self _ _)
    obtain ⟨hres, hent⟩ := ih (fun j hj => hbound j (List.mem_cons_of_mem _ hj))
    have hget : src[i]? = some (src.getD i defaultPage) := by
      rw [List.getD_eq_getElem?_getD, List.getElem?_eq_getElem hi]
      rfl
    have hcopy : copyPage src i = .ok (src.getD i defaultPage) := by
      simp only [copyPage, hget]
    have hsave : save (addPage [] (src.getD i defaultPage)) true = [src.getD i defaultPage] := rfl
    simp only [splitLoop, Act.bind_eq, Act.lift, Act.emit, Act.bind, hcopy, hsave, hres,
      List.nil_append, List.map_cons]
    refine ⟨trivial, ?_⟩
    rw [← hent]
    rfl

/-- C7: when the source file loads as a document of M pages, the `splitpdf` recipe appends
exactly M entries to the archive; the entry at position i (counted from 1) is named
`page_i.pdf` and is a document of exactly one page, source page i; the entry names are
pairwise distinct. -/
theorem splitpdf_entries (L : Lib) (w : World) (file0 : UploadedFile)
    (files : List UploadedFile) (bytes : Bytes) (src : PdfDoc)
    (hread : w.readFileSync file0.path = .ok bytes) (hload : w.pdfLoad bytes = .ok src) :
    (entries (splitpdf L w file0 files).trace).length = src.length ∧
      (∀ i (h : i < src.length), (entries (splitpdf L w file0 files).trace)[i]? =
        some ("page_" ++ toString (i + 1) ++ ".pdf", [src[i]])) ∧
      ((entries (splitpdf L w file0 files).trace).map Prod.fst).Nodup := by
  obtain ⟨hres, hent⟩ := splitLoop_entries src (List.range src.length)
    (fun i hi => List.mem_range.1 hi)
  have hall : entries (splitpdf L w file0 files).trace =
      (List.range src.length).map (fun i => (pageName i, [src.getD i defaultPage])) := by
    simp only [splitpdf, Act.bind_eq, Act.call, Act.emit, Act.bind, hread, hload, hres]
    have hnil : entries [] = [] := rfl
    cases w.archiveFinalize (L.join w.tmpdir ("split_pages_" ++ timestamp w ++ ".zip")) <;>
      simp only [entries_append, entries_cons, hent, appended, Act.pure_eq, cleanup, Act.emits,
        entries_unlinks, hnil, Option.toList, List.nil_append, List.append_nil]
  rw [hall]
  refine ⟨by simp, ?_, ?_⟩
  · intro i h
    rw [List.getElem?_map, List.getElem?_range h]
    simp only [Option.map_some', pageName, List.getD_eq_getElem?_getD,
      List.getElem?_eq_getElem h, Option.getD_some]
  · rw [List.map_map]
    exact (List.nodup_range _).map (fun i j hij => pageName_injective hij)

/-- C7, at a concrete request: a source of three pages. -/
theorem splitpdf_entries_witness :
    (entries (splitpdf plainLib bookWorld ⟨"a.pdf", "application/pdf", "/tmp/u1"⟩
        [⟨"a.pdf", "application/pdf", "/tmp/u1"⟩]).trace).length = 3 ∧
      (entries (splitpdf plainLib bookWorld ⟨"a.pdf", "application/pdf", "/tmp/u1"⟩
        [⟨"a.pdf", "application/pdf", "/tmp/u1"⟩]).trace)[2]? =
          some ("page_3.pdf", [⟨3, 3, []⟩]) :=
  have h := splitpdf_entries plainLib bookWorld ⟨"a.pdf", "application/pdf", "/tmp/u1"⟩
    [⟨"a.pdf", "application/pdf", "/tmp/u1"⟩] [] [⟨1, 1, []⟩, ⟨2, 2, []⟩, ⟨3, 3, []⟩] rfl rfl
  ⟨h.1, h.2.1 2 (by decide)⟩

/-! ## Images to PDF -/

theorem img2pdfLoop_embedded (w : World) (imageOf : UploadedFile → Image)
    (files : List UploadedFile) (doc : PdfDoc)
    (hfiles : ∀ file ∈ files, ∃ bytes, w.readFileSync file.path = .ok bytes ∧
      (file.mimetype = "image/jpeg" → w.embedJpg bytes = .ok (imageOf file)) ∧
      (file.mimetype = "image/png" → w.embedPng bytes = .ok (imageOf file))) :
    (img2pdfLoop w files doc).result =
        .ok (doc ++ (files.filter supported).map (fun f => imagePage (imageOf f))) ∧
      documents (img2pdfLoop w files doc).trace = [] := by
  induction files generalizing doc with
  | nil => simp [img2pdfLoop, Act.pure_eq, documents]
  | cons file rest ih =>
    obtain ⟨bytes, hr, hj, hp⟩ := hfiles file (List.mem_cons_self _ _)
    have hrest := fun doc => ih doc (fun f hf => hfiles f (List.mem_cons_of_mem _ hf))
    have hnil : documents [] = [] := rfl
    simp only [img2pdfLoop, Act.bind_eq, Act.map_eq, Act.call, Act.pure_eq]
    by_cases hjpeg : file.mimetype = "image/jpeg"
    · have hsup : supported file = true := by simp [supported, hjpeg]
      simp only [Act.bind, hr, hjpeg, if_true, hj hjpeg, (hrest _).1, (hrest _).2,
        List.filter_cons, hsup, List.map_cons, addPage, List.append_assoc, List.singleton_append,
        List.nil_append, documents_cons, documents_append, writtenDoc, Option.toList, hnil,
        List.append_nil, and_self]
    · by_cases hpng : file.mimetype = "image/png"
      · have hsup : supported file = true := by simp [supported, hpng]
        have hne : ¬ ("image/png" = "image/jpeg") := by decide
        simp only [Act.bind, hr, hne, hpng, if_true, if_false, hp hpng, (hrest _).1,
          (hrest _).2, List.filter_cons, hsup, List.map_cons, addPage, List.append_assoc,
          List.singleton_append, List.nil_append, documents_cons, documents_append, writtenDoc,
          Option.toList, hnil, List.append_nil, and_self]
      · have hsup : supported file = false := by simp [supported, hjpeg, hpng]
        simp only [Act.bind, hr, hjpeg, hpng, if_false, (hrest _).1, (hrest _).2,
          List.filter_cons, hsup, List.nil_append, documents_cons, documents_append, writtenDoc,
          Option.toList, hnil, List.append_nil, and_self, Bool.false_eq_true]

/-- C8, as amended: when every file of the batch can be read and every JPEG or PNG file
embeds, the loop of the `img2pdf` recipe ends without an exception and the recipe writes one
document. If the batch has a file whose declared content type is `image/jpeg` or `image/png`,
the document has exactly one page per such file, in batch order, each sized to the image's
width and height with the image drawn at the origin at full size, and no page for any other
file; if the batch has no such file, the document is the single blank page that `save()`
adds to a document without pages. -/
theorem img2pdf_pages (L : Lib) (w : World) (imageOf : UploadedFile → Image)
    (files : List UploadedFile)
    (hfiles : ∀ file ∈ files, ∃ bytes, w.readFileSync file.path = .ok bytes ∧
      (file.mimetype = "image/jpeg" → w.embedJpg bytes = .ok (imageOf file)) ∧
      (file.mimetype = "image/png" → w.embedPng bytes = .ok (imageOf file))) :
    (∃ pages, (img2pdfLoop w files []).result = .ok pages) ∧
    ∃ out, documents (img2pdf L w files).trace = [out] ∧
      (files.filter supported ≠ [] →
        out = (files.filter supported).map (fun f =>
          (⟨(imageOf f).width, (imageOf f).height,
            [⟨imageOf f, 0, 0, (imageOf f).width, (imageOf f).height⟩]⟩ : PdfPage))) ∧
      (files.filter supported = [] → out = [defaultPage]) := by
  obtain ⟨hres, hdocs⟩ := img2pdfLoop_embedded w imageOf files [] hfiles
  rw [List.nil_append] at hres
  refine ⟨⟨_, hres⟩, save ((files.filter supported).map (fun f => imagePage (imageOf f))) true,
    ?_, ?_, ?_⟩
  · simp only [img2pdf, Act.bind_eq]
    rw [Act.bind_of_ok hres]
    simp only [documents_append, hdocs, List.nil_append]
    cases w.writeFileSync (L.join w.tmpdir ("converted_images_" ++ timestamp w ++ ".pdf")) <;>
      simp [Act.bind, Act.call, Act.pure_eq, cleanup, Act.emits, documents_cons,
        documents_append, documents_unlinks, writtenDoc, documents]
  · intro hsome
    have hpos := List.length_pos.2 hsome
    have hlen : (((files.filter supported).map (fun f => imagePage (imageOf f))).length == 0)
        = false := by
      rw [beq_eq_false_iff_ne, List.length_map]
      omega
    simp only [save, hlen, Bool.and_false]
    rfl
  · intro hnone
    simp [save, hnone, addPage]

/-- C8 as amended, at a concrete batch: an 800×600 JPEG followed by a GIF. -/
theorem img2pdf_pages_witness :
    ∃ out, documents (img2pdf plainLib quietWorld
        [⟨"a.jpg", "image/jpeg", "/tmp/u1"⟩, ⟨"b.gif", "image/gif", "/tmp/u2"⟩]).trace = [out] ∧
      out = [⟨800, 600, [⟨⟨800, 600, "jpg"⟩, 0, 0, 800, 600⟩]⟩] :=
  have h := img2pdf_pages plainLib quietWorld
    (fun f => if f.mimetype = "image/jpeg" then ⟨800, 600, "jpg"⟩ else ⟨640, 480, "png"⟩)
    [⟨"a.jpg", "image/jpeg", "/tmp/u1"⟩, ⟨"b.gif", "image/gif", "/tmp/u2"⟩]
    (by
      intro file _
      refine ⟨[], rfl, ?_, ?_⟩ <;> intro h <;> simp [quietWorld, h])
  h.2.elim fun out hout => ⟨out, hout.1, hout.2.1 (by decide)⟩

/-- C8 as stated fails: a batch of one GIF passes the `img2pdf` validation and has no JPEG or
PNG file, yet the document written has one page. -/
theorem img2pdf_gif_counterexample :
    [(⟨"a.gif", "image/gif", "/tmp/u1"⟩ : UploadedFile)].filter supported = [] ∧
      documents (convert plainLib quietWorld
        ⟨some "img2pdf", [⟨"a.gif", "image/gif", "/tmp/u1"⟩]⟩).1 = [[defaultPage]] := by
  decide

/-! ## OCR -/

theorem filter_of_find_some {α : Type} (p : α → Bool) (l : List α) (x : α)
    (h : l.find? p = some x) : ∃ tl, l.filter p = x :: tl := by
  induction l with
  | nil => simp at h
  | cons a l ih =>
    by_cases hp : p a = true
    · simp only [List.find?_cons, hp, Option.some.injEq] at h
      subst h
      exact ⟨l.filter p, by simp [List.filter_cons, hp]⟩
    · simp only [List.find?_cons, hp] at h
      obtain ⟨tl, htl⟩ := ih h
      exact ⟨tl, by simp [List.filter_cons, hp, htl]⟩

theorem filter_of_find_none {α : Type} (p : α → Bool) (l : List α)
    (h : l.find? p = none) : l.filter p = [] := by
  rw [List.find?_eq_none] at h
  exact List.filter_eq_nil_iff.2 h

/-- C9: the `ocr` recipe decides on the first file's declared content type alone. If it
starts with `image/`, the recognizer is called on the uploaded file and its result is the
text. If it equals `application/pdf`, the external renderer is invoked: the first call is the
execution of the converter at its fixed path with `--headless --convert-to png`, the temp
directory as `--outdir` and the upload's path as input, both quoted. When it exits
successfully and the temp directory lists, the text is the recognizer's result on the first
listed name that starts with the input's basename and ends with `.png`, or the fixed
`Could not extract text from PDF…` message when there is no such name. For any other content
type the text is the fixed `Unsupported file type for OCR…` message and the only calls made
are the unlinks of the uploads: neither recognizer nor renderer is called. -/
theorem ocr_decides (L : Lib) (w : World) (file0 : UploadedFile) (files : List UploadedFile) :
    (startsWith file0.mimetype "image/" = true → ∀ text,
      w.recognize file0.path = .ok text →
      ocr L w file0 files =
        ⟨.recognize file0.path :: (files.map UploadedFile.path).map Effect.unlink,
          .ok (send (.ocrResult text))⟩) ∧
    (file0.mimetype = "application/pdf" → ∀ listing,
      (w.exec ("\"C:\\Program Files\\LibreOffice\\program\\soffice.exe\" --headless --convert-to png --outdir \"" ++
                w.tmpdir ++ "\" \"" ++ file0.path ++ "\"")).err = none →
      w.readdirSync w.tmpdir = .ok listing →
      (∀ png text,
        listing.find? (fun name =>
          startsWith name (L.basename file0.path (L.extname file0.path)) &&
            endsWith name ".png") = some png →
        w.recognize (L.join w.tmpdir png) = .ok text →
        ocr L w file0 files =
          ⟨[.exec ("\"C:\\Program Files\\LibreOffice\\program\\soffice.exe\" --headless --convert-to png --outdir \"" ++
                w.tmpdir ++ "\" \"" ++ file0.path ++ "\""), .readdirSync w.tmpdir,
              .recognize (L.join w.tmpdir png), .unlinkSync (L.join w.tmpdir png)] ++
              (files.map UploadedFile.path).map Effect.unlink,
            .ok (send (.ocrResult text))⟩) ∧
      (listing.find? (fun name =>
          startsWith name (L.basename file0.path (L.extname file0.path)) &&
            endsWith name ".png") = none →
        ocr L w file0 files =
          ⟨[.exec ("\"C:\\Program Files\\LibreOffice\\program\\soffice.exe\" --headless --convert-to png --outdir \"" ++
                w.tmpdir ++ "\" \"" ++ file0.path ++ "\""), .readdirSync w.tmpdir] ++
              (files.map UploadedFile.path).map Effect.unlink,
            .ok (send (.ocrResult
              "Could not extract text from PDF. The PDF might be empty or contain only non-text content."))⟩)) ∧
    (startsWith file0.mimetype "image/" = false → file0.mimetype ≠ "application/pdf" →
      ocr L w file0 files =
        ⟨(files.map UploadedFile.path).map Effect.unlink,
          .ok (send (.ocrResult
            "Unsupported file type for OCR. Please upload an image (PNG, JPG) or PDF file."))⟩) := by
  have hcmd : renderCommand w file0.path = ("\"C:\\Program Files\\LibreOffice\\program\\soffice.exe\" --headless --convert-to png --outdir \"" ++
                w.tmpdir ++ "\" \"" ++ file0.path ++ "\"") := rfl
  refine ⟨?_, ?_, ?_⟩
  · intro himg text hrec
    simp only [ocr, ocrText, himg, if_true, Act.call, hrec, Act.tryCatch, Act.bind_eq, Act.bind,
      cleanup, Act.emits, Act.pure_eq, List.singleton_append, List.append_nil]
  · rw [← hcmd]
    intro hpdf listing hexec hdir
    have himg : startsWith "application/pdf" "image/" = false := by decide
    have hrun : execPromise (w.exec (renderCommand w file0.path)) =
        .ok (w.exec (renderCommand w file0.path)).stdout := by
      simp only [execPromise, hexec]
    have hfilter : isRendered (L.basename file0.path (L.extname file0.path)) =
        (fun name => startsWith name (L.basename file0.path (L.extname file0.path)) &&
          endsWith name ".png") := rfl
    refine ⟨?_, ?_⟩
    · intro png text hfind hrec
      obtain ⟨tl, htl⟩ := filter_of_find_some _ listing png hfind
      simp only [ocr, ocrText, himg, hpdf, if_true, Act.call, runExec, hrun, hdir, hfilter, htl,
        hrec, Act.tryCatch, Act.bind_eq, Act.bind, Act.emit, cleanup, Act.emits, Act.pure_eq,
        List.singleton_append, List.append_nil, List.cons_append, List.nil_append,
        Bool.false_eq_true, if_false]
    · intro hfind
      have hnil := filter_of_find_none _ listing hfind
      simp only [ocr, ocrText, himg, hpdf, if_true, Act.call, runExec, hrun, hdir, hfilter, hnil,
        Act.tryCatch, Act.bind_eq, Act.bind, Act.emit, cleanup, Act.emits, Act.pure_eq,
        List.singleton_append, List.append_nil, List.cons_append, List.nil_append,
        Bool.false_eq_true, if_false]
  · intro himg hpdf
    simp only [ocr, ocrText, himg, hpdf, if_false, Act.tryCatch, Act.bind_eq, Act.bind,
      cleanup, Act.emits, Act.pure_eq, List.nil_append, List.append_nil, Bool.false_eq_true]

/-- C9, at concrete requests: an image, a PDF with rendered pages in the temp directory, a
PDF without any, and a text file, each with every call the recipe makes. -/
theorem ocr_decides_witness :
    ocr plainLib quietWorld ⟨"a.png", "image/png", "/tmp/u1"⟩
        [⟨"a.png", "image/png", "/tmp/u1"⟩] =
      ⟨[.recognize "/tmp/u1", .unlink "/tmp/u1"], .ok (send (.ocrResult "text"))⟩ ∧
    ocr plainLib renderedWorld ⟨"a.pdf", "application/pdf", "/tmp/u1"⟩
        [⟨"a.pdf", "application/pdf", "/tmp/u1"⟩] =
      ⟨[.exec "\"C:\\Program Files\\LibreOffice\\program\\soffice.exe\" --headless --convert-to png --outdir \"/tmp\" \"/tmp/u1\"",
          .readdirSync "/tmp", .recognize "/tmp/u1_p1.png", .unlinkSync "/tmp/u1_p1.png",
          .unlink "/tmp/u1"],
        .ok (send (.ocrResult "text of /tmp/u1_p1.png"))⟩ ∧
    ocr plainLib quietWorld ⟨"a.pdf", "application/pdf", "/tmp/u1"⟩
        [⟨"a.pdf", "application/pdf", "/tmp/u1"⟩] =
      ⟨[.exec "\"C:\\Program Files\\LibreOffice\\program\\soffice.exe\" --headless --convert-to png --outdir \"/tmp\" \"/tmp/u1\"",
          .readdirSync "/tmp", .unlink "/tmp/u1"],
        .ok (send (.ocrResult
          "Could not extract text from PDF. The PDF might be empty or contain only non-text content."))⟩ ∧
    ocr plainLib quietWorld ⟨"a.pdf", "text/plain", "/tmp/u1"⟩
        [⟨"a.pdf", "text/plain", "/tmp/u1"⟩] =
      ⟨[.unlink "/tmp/u1"], .ok (send (.ocrResult
        "Unsupported file type for OCR. Please upload an image (PNG, JPG) or PDF file."))⟩ :=
  ⟨(ocr_decides plainLib quietWorld ⟨"a.png", "image/png", "/tmp/u1"⟩
      [⟨"a.png", "image/png", "/tmp/u1"⟩]).1 (by decide) "text" rfl,
    (((ocr_decides plainLib renderedWorld ⟨"a.pdf", "application/pdf", "/tmp/u1"⟩
        [⟨"a.pdf", "application/pdf", "/tmp/u1"⟩]).2.1 rfl
        ["other.png", "u1.txt", "u1_p1.png", "u1_p2.png"] rfl rfl).1
        "u1_p1.png" "text of /tmp/u1_p1.png" (by decide) (by decide)),
    (((ocr_decides plainLib quietWorld ⟨"a.pdf", "application/pdf", "/tmp/u1"⟩
        [⟨"a.pdf", "application/pdf", "/tmp/u1"⟩]).2.1 rfl [] rfl rfl).2
        (by decide)),
    (ocr_decides plainLib quietWorld ⟨"a.pdf", "text/plain", "/tmp/u1"⟩
      [⟨"a.pdf", "text/plain", "/tmp/u1"⟩]).2.2 (by decide) (by decide)⟩

/-- What the `ocr` recipe answers with: the request's uploads are unlinked after the calls
of the `try` block, and the page shows the text of the `try` block or, when that throws, the
text of the `catch` block. -/
theorem ocr_eq (L : Lib) (w : World) (file0 : UploadedFile) (files : List UploadedFile) :
    ocr L w file0 files =
      ⟨(ocrText L w file0).trace ++ (files.map UploadedFile.path).map Effect.unlink,
        .ok (send (.ocrResult
          (match (ocrText L w file0).result with
            | .ok text => text
            | .error error => "Error during OCR processing: " ++ error.messageStr)))⟩ := by
  simp only [ocr]
  cases h : (ocrText L w file0).result <;>
    simp [Act.tryCatch, h, Act.bind_eq, Act.bind, Act.pure_eq, cleanup, Act.emits]

theorem ocrText_image_failure (L : Lib) (w : World) (file0 : UploadedFile) (e : JsVal)
    (himg : startsWith file0.mimetype "image/" = true)
    (hrec : w.recognize file0.path = .error e) : (ocrText L w file0).result = .error e := by
  simp only [ocrText, himg, if_true, Act.call, hrec]

theorem ocrText_render_failure (L : Lib) (w : World) (file0 : UploadedFile) (e : JsVal)
    (hpdf : file0.mimetype = "application/pdf")
    (hexec : execPromise (w.exec (renderCommand w file0.path)) = .error e) :
    (ocrText L w file0).result = .error e := by
  have himg : startsWith "application/pdf" "image/" = false := by decide
  simp only [ocrText, hpdf, himg, if_true, runExec, Act.call, hexec, Act.bind_eq, Act.bind,
    Bool.false_eq_true, if_false]

/-- C10, what the code does: for every `ocr` request that passed validation and whatever the
recognizer, the external renderer and the file system answer, the handler responds with
status 200 and the OCR result page: the status-500 page of the outer `catch` is never sent
and no exception leaves the handler. When the `try` block of the recipe throws (in
particular when the recognizer throws on an image, or when `execPromise` rejects for a PDF),
the text shown is `Error during OCR processing: ` followed by what reading `error.message`
gives: the message of an `Error` object, but `undefined` for the string that `execPromise`
rejects with when the renderer printed something. -/
theorem convert_ocr_inline (L : Lib) (w : World) (file0 : UploadedFile)
    (rest : List UploadedFile)
    (hvalid : ∀ file ∈ file0 :: rest, validateFileType L file ocrAllowed = true) :
    ∃ text, (convert L w ⟨some "ocr", file0 :: rest⟩).2 = .replied 200 (.ocrResult text) ∧
      (∀ e, (ocrText L w file0).result = .error e →
        text = "Error during OCR processing: " ++ e.messageStr) ∧
      (startsWith file0.mimetype "image/" = true → ∀ e, w.recognize file0.path = .error e →
        text = "Error during OCR processing: " ++ e.messageStr) ∧
      (file0.mimetype = "application/pdf" → ∀ e,
        execPromise (w.exec (renderCommand w file0.path)) = .error e →
        text = "Error during OCR processing: " ++ e.messageStr) := by
  have hconv := convert_of_valid L w "ocr" ocrAllowed file0 rest rfl hvalid
  have hrun := guarded_of_ok L w (some "ocr") file0 (file0 :: rest) _ _
    ((dispatch_ocr L w file0 (file0 :: rest)).trans (ocr_eq L w file0 (file0 :: rest)))
  have hfail : ∀ e, (ocrText L w file0).result = .error e →
      (match (ocrText L w file0).result with
        | .ok text => text
        | .error error => "Error during OCR processing: " ++ error.messageStr) =
      "Error during OCR processing: " ++ e.messageStr := by
    intro e he
    simp only [he]
  refine ⟨_, ?_, hfail, ?_, ?_⟩
  · rw [hconv, hrun]
    rfl
  · intro himg e hrec
    exact hfail e (ocrText_image_failure L w file0 e himg hrec)
  · intro hpdf e hexec
    exact hfail e (ocrText_render_failure L w file0 e hpdf hexec)

/-- C10, at concrete requests: a PDF whose render fails after printing `soffice: not found`
to standard error (the page shows `undefined`, not that text), and an image on which the
recognizer throws an `Error` (the page shows its message). -/
theorem convert_ocr_inline_witness :
    (convert plainLib brokenWorld
        ⟨some "ocr", [⟨"a.pdf", "application/pdf", "/tmp/u1"⟩]⟩).2 =
      .replied 200 (.ocrResult "Error during OCR processing: undefined") ∧
    (convert plainLib unreadableWorld
        ⟨some "ocr", [⟨"a.png", "image/png", "/tmp/u1"⟩]⟩).2 =
      .replied 200 (.ocrResult "Error during OCR processing: cannot read image") := by
  refine ⟨?_, ?_⟩
  · obtain ⟨text, hpage, -, -, hrender⟩ := convert_ocr_inline plainLib brokenWorld
      ⟨"a.pdf", "application/pdf", "/tmp/u1"⟩ [] (by decide)
    rw [hpage, hrender rfl (.str "soffice: not found") (by decide)]
    rfl
  · obtain ⟨text, hpage, -, himage, -⟩ := convert_ocr_inline plainLib unreadableWorld
      ⟨"a.png", "image/png", "/tmp/u1"⟩ [] (by decide)
    rw [hpage, himage (by decide) (.error "Error" "cannot read image") rfl]
    rfl

/-! ## PDF to images -/

theorem archived_cons (e : Effect) (t : List Effect) :
    archived (e :: t) = (archivedFile e).toList ++ archived t := by
  cases h : archivedFile e <;> simp [archived, List.filterMap_cons, h]

theorem archived_append (s t : List Effect) : archived (s ++ t) = archived s ++ archived t := by
  simp only [archived, List.filterMap_append]

theorem archived_map_none {α : Type} (f : α → Effect) (h : ∀ a, archivedFile (f a) = none)
    (l : List α) : archived (l.map f) = [] := by
  induction l with
  | nil => rfl
  | cons a l ih => simp [archived_cons, h a, ih]

theorem archived_files (L : Lib) (w : World) (names : List String) :
    archived (names.map fun pngFile => Effect.archiveFile (L.join w.tmpdir pngFile) pngFile) =
      names.map (fun pngFile => (L.join w.tmpdir pngFile, pngFile)) := by
  induction names with
  | nil => rfl
  | cons a l ih => simp [archived_cons, archivedFile, ih]

/-- C11: when the external renderer exits successfully and the temp directory lists, the
`pdf2img` recipe adds to the archive exactly the listed names that start with the input's
basename and end with `.png`, each read from the temp directory and stored under its own
name; when there is no such name it unlinks the uploads and answers (status 200) with the
`Failed to convert PDF to images` error page, having created no file. When the renderer
fails, it unlinks the uploads and answers (status 200) with the
`Error converting PDF to images` error page, having created no file. -/
theorem pdf2img_archives (L : Lib) (w : World) (file0 : UploadedFile)
    (files : List UploadedFile) :
    (∀ listing, (w.exec (renderCommand w file0.path)).err = none →
      w.readdirSync w.tmpdir = .ok listing →
      (listing.filter (fun name =>
          startsWith name (L.basename file0.path (L.extname file0.path)) &&
            endsWith name ".png") ≠ [] →
        archived (pdf2img L w file0 files).trace =
          (listing.filter (fun name =>
            startsWith name (L.basename file0.path (L.extname file0.path)) &&
              endsWith name ".png")).map (fun name => (L.join w.tmpdir name, name))) ∧
      (listing.filter (fun name =>
          startsWith name (L.basename file0.path (L.extname file0.path)) &&
            endsWith name ".png") = [] →
        pdf2img L w file0 files =
          ⟨[.exec (renderCommand w file0.path), .readdirSync w.tmpdir] ++
              (files.map UploadedFile.path).map Effect.unlink,
            .ok ⟨200, .errorPage
              "Failed to convert PDF to images. Please ensure the PDF is valid."⟩⟩ ∧
        written (pdf2img L w file0 files).trace = [])) ∧
    (∀ e, execPromise (w.exec (renderCommand w file0.path)) = .error e →
      pdf2img L w file0 files =
        ⟨.exec (renderCommand w file0.path) :: (files.map UploadedFile.path).map Effect.unlink,
          .ok ⟨200, .errorPage ("Error converting PDF to images: " ++ e.messageStr)⟩⟩ ∧
      written (pdf2img L w file0 files).trace = []) := by
  have hfilter : isRendered (L.basename file0.path (L.extname file0.path)) =
      (fun name => startsWith name (L.basename file0.path (L.extname file0.path)) &&
        endsWith name ".png") := rfl
  have hnil : archived [] = [] := rfl
  refine ⟨?_, ?_⟩
  · intro listing hexec hdir
    have hrun : execPromise (w.exec (renderCommand w file0.path)) =
        .ok (w.exec (renderCommand w file0.path)).stdout := by
      simp only [execPromise, hexec]
    refine ⟨?_, ?_⟩
    · intro hsome
      have hlen : (listing.filter (fun name =>
          startsWith name (L.basename file0.path (L.extname file0.path)) &&
            endsWith name ".png")).length > 0 := List.length_pos.2 hsome
      simp only [pdf2img, runExec, Act.call, Act.emit, Act.bind_eq, hfilter]
      cases hfin : w.archiveFinalize (L.join w.tmpdir ("pdf_images_" ++ timestamp w ++ ".zip")) <;>
        simp only [Act.bind, Act.tryCatch, hrun, hdir, hlen, hfin, if_true, Act.emits,
          Act.pure_eq, cleanup, archived_append, archived_cons, archivedFile, archived_files,
          hnil, Option.toList, List.nil_append, List.append_nil,
          archived_map_none (fun pngFile => Effect.unlinkSync (L.join w.tmpdir pngFile))
            (fun _ => rfl),
          archived_map_none Effect.unlink (fun _ => rfl)]
    · intro hnone
      have hlen : ¬ (([] : List String).length > 0) := by simp
      have heq : pdf2img L w file0 files =
          ⟨[.exec (renderCommand w file0.path), .readdirSync w.tmpdir] ++
              (files.map UploadedFile.path).map Effect.unlink,
            .ok ⟨200, .errorPage
              "Failed to convert PDF to images. Please ensure the PDF is valid."⟩⟩ := by
        simp only [pdf2img, runExec, Act.call, Act.emit, Act.bind_eq, hfilter, Act.bind,
          Act.tryCatch, hrun, hdir, hnone, hlen, if_false, Act.emits, Act.pure_eq, cleanup, send,
          List.singleton_append, List.cons_append, List.nil_append, List.append_nil]
      refine ⟨heq, ?_⟩
      rw [heq]
      simp only [written_append, written_cons, written_nil, writtenPath, written_unlinks,
        Option.toList, List.append_nil]
  · intro e hexec
    have heq : pdf2img L w file0 files =
        ⟨.exec (renderCommand w file0.path) :: (files.map UploadedFile.path).map Effect.unlink,
          .ok ⟨200, .errorPage ("Error converting PDF to images: " ++ e.messageStr)⟩⟩ := by
      simp only [pdf2img, runExec, Act.call, Act.bind_eq, Act.bind, Act.tryCatch, hexec,
        Act.emits, Act.pure_eq, cleanup, send, List.singleton_append, List.append_nil]
    refine ⟨heq, ?_⟩
    rw [heq]
    simp only [written_cons, writtenPath, written_unlinks, Option.toList, List.append_nil]

/-- C11, at concrete requests: a temp directory with two rendered pages of the upload among
other files, an empty temp directory, and a renderer that fails. -/
theorem pdf2img_archives_witness :
    archived (pdf2img plainLib renderedWorld ⟨"a.pdf", "application/pdf", "/tmp/u1"⟩
        [⟨"a.pdf", "application/pdf", "/tmp/u1"⟩]).trace =
      [("/tmp/u1_p1.png", "u1_p1.png"), ("/tmp/u1_p2.png", "u1_p2.png")] ∧
    (pdf2img plainLib quietWorld ⟨"a.pdf", "application/pdf", "/tmp/u1"⟩
        [⟨"a.pdf", "application/pdf", "/tmp/u1"⟩]).result =
      .ok ⟨200, .errorPage "Failed to convert PDF to images. Please ensure the PDF is valid."⟩ ∧
    (pdf2img plainLib brokenWorld ⟨"a.pdf", "application/pdf", "/tmp/u1"⟩
        [⟨"a.pdf", "application/pdf", "/tmp/u1"⟩]).result =
      .ok ⟨200, .errorPage "Error converting PDF to images: undefined"⟩ :=
  ⟨((pdf2img_archives plainLib renderedWorld ⟨"a.pdf", "application/pdf", "/tmp/u1"⟩
      [⟨"a.pdf", "application/pdf", "/tmp/u1"⟩]).1
      ["other.png", "u1.txt", "u1_p1.png", "u1_p2.png"] rfl rfl).1 (by decide),
    congrArg Act.result
      (((pdf2img_archives plainLib quietWorld ⟨"a.pdf", "application/pdf", "/tmp/u1"⟩
        [⟨"a.pdf", "application/pdf", "/tmp/u1"⟩]).1 [] rfl rfl).2 rfl).1,
    congrArg Act.result
      ((pdf2img_archives plainLib brokenWorld ⟨"a.pdf", "application/pdf", "/tmp/u1"⟩
        [⟨"a.pdf", "application/pdf", "/tmp/u1"⟩]).2 (.str "soffice: not found")
        (by decide)).1⟩

/-! ## The download route -/

/-- C12: for every requested file name, when `fs.existsSync` finds the temp directory joined
with that name, the download route hands that path to `res.download` with a callback that
schedules the unlink of that path 5000 ms later; when it does not, the route answers with
status 404 and the `File not found or has expired.` error page and schedules nothing. -/
theorem download_cases (L : Lib) (w : World) (filename : String) :
    (w.existsSync (L.join w.tmpdir filename) = true →
      download L w filename = .download (L.join w.tmpdir filename) 5000) ∧
    (w.existsSync (L.join w.tmpdir filename) = false →
      download L w filename = .replied 404 (.errorPage "File not found or has expired.")) := by
  refine ⟨?_, ?_⟩ <;> intro h <;> simp [download, downloadPath, h]

/-- C12, at concrete requests: a name that exists in the temp directory and one that does
not. -/
theorem download_cases_witness :
    download plainLib convertedWorld "merged_pdfs_1700000000000.pdf" =
      .download "/tmp/merged_pdfs_1700000000000.pdf" 5000 ∧
    download plainLib quietWorld "merged_pdfs_1700000000000.pdf" =
      .replied 404 (.errorPage "File not found or has expired.") :=
  ⟨(download_cases plainLib convertedWorld "merged_pdfs_1700000000000.pdf").1 rfl,
    (download_cases plainLib quietWorld "merged_pdfs_1700000000000.pdf").2 rfl⟩

/-! ## Unknown kinds -/

theorem kinds_eq : kinds = ["pdf2word", "word2pdf", "img2pdf", "pdf2img", "excel2pdf",
    "pdf2excel", "mergepdf", "splitpdf", "compresspdf", "ocr"] := rfl

theorem lookup_of_not_kind (t : String) (h : t ∉ kinds) : validationTable.lookup t = none := by
  simp only [kinds_eq, List.mem_cons, List.mem_singleton, List.mem_nil_iff, or_false,
    not_or] at h
  obtain ⟨h1, h2, h3, h4, h5, h6, h7, h8, h9, h10⟩ := h
  simp only [validationTable, List.lookup, beq_false_of_ne h1, beq_false_of_ne h2,
    beq_false_of_ne h3, beq_false_of_ne h4, beq_false_of_ne h5, beq_false_of_ne h6,
    beq_false_of_ne h7, beq_false_of_ne h8, beq_false_of_ne h9, beq_false_of_ne h10]

theorem dispatch_of_not_kind (L : Lib) (w : World) (type : Option String)
    (file0 : UploadedFile) (files : List UploadedFile)
    (h : ∀ t, type = some t → t ∉ kinds) :
    dispatch L w type file0 files =
      ⟨(files.map UploadedFile.path).map Effect.unlink,
        .ok ⟨200, .errorPage "Conversion type not implemented."⟩⟩ := by
  have hne : ∀ k ∈ kinds, type ≠ some k := fun k hk heq => h k heq hk
  simp only [kinds_eq, List.mem_cons, List.mem_singleton, List.mem_nil_iff, or_false,
    forall_eq_or_imp, forall_eq] at hne
  obtain ⟨h1, h2, h3, h4, h5, h6, h7, h8, h9, h10⟩ := hne
  simp only [dispatch, h1, h2, h3, h4, h5, h6, h7, h8, h9, h10, if_false, Act.bind_eq, Act.bind,
    Act.pure_eq, cleanup, Act.emits, send, List.append_nil]

/-- C13, what the code does: for every non-empty batch and every `type` that is not one of
the ten kind identifiers (a missing `type` included), the handler skips validation, unlinks
all uploaded paths and answers (status 200) with the `Conversion type not implemented.` error
page, provided `type` is not the name of a member every object inherits, such as `toString`
or `constructor`. For such a name `validationRules[type]` is that inherited member, the call
`allowedTypes.some(…)` throws a `TypeError` before the `try` block, nothing is unlinked and no
response is sent. -/
theorem convert_unknown_kind (L : Lib) (w : World) (type : Option String)
    (file0 : UploadedFile) (rest : List UploadedFile)
    (hunknown : ∀ t, type = some t → t ∉ kinds) :
    ((∀ t, type = some t → t ∉ objectPrototypeKeys) →
      convert L w ⟨type, file0 :: rest⟩ =
        (((file0 :: rest).map UploadedFile.path).map Effect.unlink,
          .replied 200 (.errorPage "Conversion type not implemented."))) ∧
    (∀ t, type = some t → t ∈ objectPrototypeKeys →
      convert L w ⟨type, file0 :: rest⟩ = ([], .escaped notAFunction)) := by
  refine ⟨?_, ?_⟩
  · intro hown
    have hrules : validationRules type = .undefined := by
      cases type with
      | none => rfl
      | some t =>
        simp only [validationRules, lookup_of_not_kind t (hunknown t rfl),
          if_neg (hown t rfl)]
    simp only [convert, hrules, guarded, dispatch_of_not_kind L w type file0 _ hunknown,
      Act.tryCatch, finish]
  · intro t ht hproto
    subst ht
    simp only [convert, validationRules, lookup_of_not_kind t (hunknown t rfl), if_pos hproto]

/-- C13, at concrete requests: an unknown kind, a missing kind, and the kind `toString`. -/
theorem convert_unknown_kind_witness :
    convert plainLib quietWorld ⟨some "pdf2txt", [⟨"a.pdf", "application/pdf", "/tmp/u1"⟩]⟩ =
      ([.unlink "/tmp/u1"], .replied 200 (.errorPage "Conversion type not implemented.")) ∧
    convert plainLib quietWorld ⟨none, [⟨"a.pdf", "application/pdf", "/tmp/u1"⟩]⟩ =
      ([.unlink "/tmp/u1"], .replied 200 (.errorPage "Conversion type not implemented.")) ∧
    convert plainLib quietWorld ⟨some "toString", [⟨"a.pdf", "application/pdf", "/tmp/u1"⟩]⟩ =
      ([], .escaped (.error "TypeError" "allowedTypes.some is not a function")) :=
  ⟨(convert_unknown_kind plainLib quietWorld (some "pdf2txt")
      ⟨"a.pdf", "application/pdf", "/tmp/u1"⟩ [] (by decide)).1 (by decide),
    (convert_unknown_kind plainLib quietWorld none
      ⟨"a.pdf", "application/pdf", "/tmp/u1"⟩ [] (by decide)).1 (by decide),
    (convert_unknown_kind plainLib quietWorld (some "toString")
      ⟨"a.pdf", "application/pdf", "/tmp/u1"⟩ [] (by decide)).2 "toString" rfl (by decide)⟩

/-! ## The `catch` of the route handler -/

theorem pdf2img_replies (L : Lib) (w : World) (file0 : UploadedFile)
    (files : List UploadedFile) : ∃ page, (pdf2img L w file0 files).result = .ok ⟨200, page⟩ := by
  simp only [pdf2img, runExec, Act.bind_eq, Act.call, Act.emit]
  cases hx : execPromise (w.exec (renderCommand w file0.path)) with
  | error e =>
    simp only [Act.bind, Act.tryCatch, Act.pure_eq, send, cleanup, Act.emits]
    exact ⟨_, rfl⟩
  | ok out =>
    cases hd : w.readdirSync w.tmpdir with
    | error e =>
      simp only [Act.bind, Act.tryCatch, Act.pure_eq, send, hd, cleanup, Act.emits]
      exact ⟨_, rfl⟩
    | ok listing =>
      by_cases hlen : (listing.filter
          (isRendered (L.basename file0.path (L.extname file0.path)))).length > 0
      · cases hfin : w.archiveFinalize
            (L.join w.tmpdir ("pdf_images_" ++ timestamp w ++ ".zip")) with
        | error e =>
          simp only [Act.bind, Act.tryCatch, Act.pure_eq, send, hd, hlen, hfin, if_true,
            Act.emits, cleanup]
          exact ⟨_, rfl⟩
        | ok u =>
          simp only [Act.bind, Act.tryCatch, Act.pure_eq, send, hd, hlen, hfin, if_true,
            Act.emits, cleanup]
          exact ⟨_, rfl⟩
      · simp only [Act.bind, Act.tryCatch, Act.pure_eq, send, hd, hlen, if_false, cleanup,
          Act.emits]
        exact ⟨_, rfl⟩

theorem convert_of_passed (L : Lib) (w : World) (type : Option String) (file0 : UploadedFile)
    (rest : List UploadedFile) (hown : validationRules type ≠ .inherited)
    (hvalid : ∀ allowed, validationRules type = .rules allowed →
      ∀ file ∈ file0 :: rest, validateFileType L file allowed = true) :
    convert L w ⟨type, file0 :: rest⟩ = finish (guarded L w type file0 (file0 :: rest)) := by
  cases hrules : validationRules type with
  | inherited => exact absurd hrules hown
  | undefined => simp only [convert, hrules]
  | rules allowed =>
    have hany : (file0 :: rest).any (fun file => !validateFileType L file allowed) = false := by
      rw [List.any_eq_false]
      intro file hmem
      simp [hvalid allowed hrules file hmem]
    simp only [convert, hrules]
    rw [if_neg (by simp [hany])]

/-- C14, as amended: for every `/convert` request with at least one uploaded file that gets
past validation (its `type` has an allow-list that every file satisfies, or has no entry in
the validation table), an exception thrown inside the `try` block and not caught by a recipe
is caught by the route handler, which unlinks all uploads and answers with status 500 and
the error page `Error during conversion: <error>`; the `pdf2img` and `ocr` recipes catch
their own exceptions and always answer with status 200; in every case a response is sent
and no exception leaves the handler. -/
theorem convert_catches (L : Lib) (w : World) (type : Option String) (file0 : UploadedFile)
    (rest : List UploadedFile) (hown : validationRules type ≠ .inherited)
    (hvalid : ∀ allowed, validationRules type = .rules allowed →
      ∀ file ∈ file0 :: rest, validateFileType L file allowed = true) :
    (∀ e, (dispatch L w type file0 (file0 :: rest)).result = .error e →
      convert L w ⟨type, file0 :: rest⟩ =
        ((dispatch L w type file0 (file0 :: rest)).trace ++
            ((file0 :: rest).map UploadedFile.path).map Effect.unlink,
          .replied 500 (.errorPage ("Error during conversion: " ++ e.toStr)))) ∧
    (∀ reply, (dispatch L w type file0 (file0 :: rest)).result = .ok reply →
      convert L w ⟨type, file0 :: rest⟩ =
        ((dispatch L w type file0 (file0 :: rest)).trace,
          .replied reply.status reply.page)) ∧
    (type = some "ocr" ∨ type = some "pdf2img" →
      ∃ page, (dispatch L w type file0 (file0 :: rest)).result = .ok ⟨200, page⟩) ∧
    ∃ status page, (convert L w ⟨type, file0 :: rest⟩).2 = .replied status page := by
  have hconv := convert_of_passed L w type file0 rest hown hvalid
  have herr : ∀ e, (dispatch L w type file0 (file0 :: rest)).result = .error e →
      convert L w ⟨type, file0 :: rest⟩ =
        ((dispatch L w type file0 (file0 :: rest)).trace ++
            ((file0 :: rest).map UploadedFile.path).map Effect.unlink,
          .replied 500 (.errorPage ("Error during conversion: " ++ e.toStr))) := by
    intro e he
    rw [hconv]
    simp only [guarded, Act.tryCatch, he, finish, Act.bind_eq, Act.bind, Act.pure_eq, cleanup,
      Act.emits, List.append_nil]
  have hok : ∀ reply, (dispatch L w type file0 (file0 :: rest)).result = .ok reply →
      convert L w ⟨type, file0 :: rest⟩ =
        ((dispatch L w type file0 (file0 :: rest)).trace,
          .replied reply.status reply.page) := by
    intro reply hr
    rw [hconv]
    simp only [guarded, Act.tryCatch, hr, finish]
  refine ⟨herr, hok, ?_, ?_⟩
  · rintro (rfl | rfl)
    · rw [dispatch_ocr, ocr_eq]
      exact ⟨_, rfl⟩
    · rw [dispatch_pdf2img]
      exact pdf2img_replies L w file0 _
  · cases hres : (dispatch L w type file0 (file0 :: rest)).result with
    | error e => exact ⟨500, _, by rw [herr e hres]⟩
    | ok reply => exact ⟨reply.status, reply.page, by rw [hok reply hres]⟩

/-- C14 as amended, at a concrete request: merging a file that does not parse. -/
theorem convert_catches_witness :
    convert plainLib corruptWorld ⟨some "mergepdf", [⟨"a.pdf", "application/pdf", "/tmp/u1"⟩]⟩ =
      ([.readFileSync "/tmp/u1", .pdfLoad [], .unlink "/tmp/u1"],
        .replied 500 (.errorPage
          "Error during conversion: Error: Failed to parse PDF document")) :=
  (convert_catches plainLib corruptWorld (some "mergepdf")
    ⟨"a.pdf", "application/pdf", "/tmp/u1"⟩ [] (by decide)
    (by
      intro allowed h
      have h' : RuleLookup.rules [".pdf", "application/pdf"] = RuleLookup.rules allowed := h
      cases h'
      decide)).1
    (.error "Error" "Failed to parse PDF document") (by decide)

/-- C14 as stated fails: in a `pdf2img` request the rejection of `execPromise` is an
exception thrown inside the recipe, and it is answered with status 200 and the recipe's own
error page, not with status 500 and the `Error during conversion` page. -/
theorem convert_pdf2img_failure_counterexample :
    execPromise (brokenWorld.exec (renderCommand brokenWorld "/tmp/u1")) =
      .error (.str "soffice: not found") ∧
    convert plainLib brokenWorld ⟨some "pdf2img", [⟨"a.pdf", "application/pdf", "/tmp/u1"⟩]⟩ =
      ([.exec (renderCommand brokenWorld "/tmp/u1"), .unlink "/tmp/u1"],
        .replied 200 (.errorPage "Error converting PDF to images: undefined")) := by
  decide

/-! ## Oversized uploads -/

theorem uploadError_of_oversize (index : Nat) (sizes : List Nat)
    (h : ∃ size ∈ sizes, size > fileSizeLimit) : ∃ err, uploadError index sizes = some err := by
  induction sizes generalizing index with
  | nil => simp at h
  | cons size rest ih =>
    simp only [uploadError]
    by_cases hcount : index ≥ 10
    · exact ⟨_, if_pos hcount⟩
    · rw [if_neg hcount]
      by_cases hsize : size > fileSizeLimit
      · exact ⟨_, if_pos hsize⟩
      · rw [if_neg hsize]
        obtain ⟨big, hmem, hbig⟩ := h
        rcases List.mem_cons.1 hmem with rfl | hrest
        · exact absurd hbig hsize
        · exact ih (index + 1) ⟨big, hrest, hbig⟩

/-- The error middleware does answer a size-limit error raised by a layer registered before
it: with the same layers and the middleware moved behind the routes, an oversized upload is
answered with the `File too large` page. -/
theorem fileSizeError_after_routes (L : Lib) (w : World) (req : HttpRequest)
    (htarget : req.target = .convert)
    (hsize : uploadError 0 req.fileSizes = some ⟨"LIMIT_FILE_SIZE", "File too large"⟩) :
    handle L w false [.limiter, .getRoot, .getPrivacy, .getDownload, .postConvert,
        .fileSizeError] none req =
      .fileTooLarge 200 (.errorPage "File too large. Maximum file size is 10MB.") := by
  simp [handle, htarget, hsize]

/-- C15, what the code does: for every `/convert` upload in which some file exceeds the
10 MB ceiling (and which the rate limiter lets through), the error the upload middleware
hands to `next` is never seen by the size-limit error middleware, because that middleware is
registered before the route and Express offers an error only to what is registered after the
layer that raised it; Express's final handler answers with status 500. The
`File too large` page is not sent, and no recipe runs. -/
theorem oversize_upload_unhandled (L : Lib) (w : World) (req : HttpRequest)
    (htarget : req.target = .convert)
    (hsize : ∃ size ∈ req.fileSizes, size > fileSizeLimit) :
    ∃ err, uploadError 0 req.fileSizes = some err ∧
      handle L w false appStack none req = .finalHandler 500 (some err) := by
  obtain ⟨err, herr⟩ := uploadError_of_oversize 0 req.fileSizes hsize
  exact ⟨err, herr, by simp [handle, appStack, htarget, herr]⟩

/-- C15, at a concrete request: one upload of 11 MB. -/
theorem oversize_upload_unhandled_witness :
    handle plainLib quietWorld false appStack none
        ⟨"10.0.0.1", .convert, [11 * 1024 * 1024],
          ⟨some "pdf2word", [⟨"a.pdf", "application/pdf", "/tmp/u1"⟩]⟩⟩ =
      .finalHandler 500 (some ⟨"LIMIT_FILE_SIZE", "File too large"⟩) := by
  obtain ⟨err, herr, hrun⟩ := oversize_upload_unhandled plainLib quietWorld
    ⟨"10.0.0.1", .convert, [11 * 1024 * 1024],
      ⟨some "pdf2word", [⟨"a.pdf", "application/pdf", "/tmp/u1"⟩]⟩⟩ rfl
    ⟨11 * 1024 * 1024, by simp, by decide⟩
  have hwhich : err = ⟨"LIMIT_FILE_SIZE", "File too large"⟩ := by
    have h : uploadError 0 [11 * 1024 * 1024] = some ⟨"LIMIT_FILE_SIZE", "File too large"⟩ := by
      decide
    exact Option.some.inj (herr.symm.trans h)
  rw [hrun, hwhich]

/-! ## The rate limiter -/

theorem countsAfter_apply (h : Hits) (reqs : List HttpRequest) (ip : String) :
    countsAfter h reqs ip = h ip + (reqs.filter (fun r => decide (r.ip = ip))).length := by
  induction reqs generalizing h with
  | nil => simp [countsAfter]
  | cons r rest ih =>
    have hstep : countsAfter h (r :: rest) = countsAfter (h.incr r.ip) rest := rfl
    rw [hstep, ih]
    by_cases hip : r.ip = ip
    · simp [Hits.incr, List.filter_cons, hip]
      omega
    · have hne : ¬ ip = r.ip := fun heq => hip heq.symm
      simp [Hits.incr, List.filter_cons, hip, hne]

theorem overLimit_iff (before : List HttpRequest) (ip : String) :
    overLimit limiterOptions (countsAfter Hits.fresh before) ip = true ↔
      15 ≤ (before.filter (fun r => decide (r.ip = ip))).length := by
  simp only [overLimit, countsAfter_apply, Hits.fresh, limiterOptions, decide_eq_true_iff]
  omega

/-- C16: with the configured limiter (window 3 600 000 ms, at most 15, the first layer of
the application), a request whose source IP has made fewer than 15 requests before it in the
window is passed on to the layers behind the limiter; a request whose source IP has made 15
or more (the 16th request and every later one) is answered by the limiter with
`Too many requests from this IP, please try again in an hour.` and reaches no route; the
verdict depends only on the earlier requests of the same source IP. -/
theorem limiter_window (L : Lib) (w : World) (before : List HttpRequest) (req : HttpRequest) :
    limiterOptions.windowMs = 3600000 ∧ limiterOptions.max = 15 ∧
    appStack.head? = some .limiter ∧
    ((before.filter (fun r => decide (r.ip = req.ip))).length < 15 →
      serve L w before req = handle L w false appStack.tail none req) ∧
    (15 ≤ (before.filter (fun r => decide (r.ip = req.ip))).length →
      serve L w before req =
        .rateLimited 429 "Too many requests from this IP, please try again in an hour.") ∧
    (∀ other : List HttpRequest,
      other.filter (fun r => decide (r.ip = req.ip)) =
        before.filter (fun r => decide (r.ip = req.ip)) →
      serve L w other req = serve L w before req) := by
  refine ⟨rfl, rfl, rfl, ?_, ?_, ?_⟩
  · intro hfew
    have hverdict : overLimit limiterOptions (countsAfter Hits.fresh before) req.ip = false := by
      rw [← Bool.not_eq_true, overLimit_iff]
      omega
    simp only [serve, hverdict, appStack, handle, List.tail_cons, Bool.false_eq_true, if_false]
  · intro hmany
    have hverdict := (overLimit_iff before req.ip).2 hmany
    simp only [serve, hverdict, appStack, handle, if_true]
    rfl
  · intro other hsame
    have hverdict : overLimit limiterOptions (countsAfter Hits.fresh other) req.ip =
        overLimit limiterOptions (countsAfter Hits.fresh before) req.ip := by
      simp only [overLimit, countsAfter_apply, hsame]
    simp only [serve, hverdict]

/-- C16, at concrete requests: after 14 requests of one address and 20 of another, the 15th
request of the first address reaches its route; after 15 it is rejected. -/
theorem limiter_window_witness :
    serve plainLib quietWorld
        (List.replicate 14 ⟨"10.0.0.1", .root, [], ⟨none, []⟩⟩ ++
          List.replicate 20 ⟨"10.0.0.2", .root, [], ⟨none, []⟩⟩)
        ⟨"10.0.0.1", .privacy, [], ⟨none, []⟩⟩ = .privacy ∧
    serve plainLib quietWorld
        (List.replicate 15 ⟨"10.0.0.1", .root, [], ⟨none, []⟩⟩ ++
          List.replicate 20 ⟨"10.0.0.2", .root, [], ⟨none, []⟩⟩)
        ⟨"10.0.0.1", .privacy, [], ⟨none, []⟩⟩ =
      .rateLimited 429 "Too many requests from this IP, please try again in an hour." :=
  ⟨((limiter_window plainLib quietWorld
      (List.replicate 14 ⟨"10.0.0.1", .root, [], ⟨none, []⟩⟩ ++
        List.replicate 20 ⟨"10.0.0.2", .root, [], ⟨none, []⟩⟩)
      ⟨"10.0.0.1", .privacy, [], ⟨none, []⟩⟩).2.2.2.1 (by decide)).trans (by decide),
    (limiter_window plainLib quietWorld
      (List.replicate 15 ⟨"10.0.0.1", .root, [], ⟨none, []⟩⟩ ++
        List.replicate 20 ⟨"10.0.0.2", .root, [], ⟨none, []⟩⟩)
      ⟨"10.0.0.1", .privacy, [], ⟨none, []⟩⟩).2.2.2.2.1 (by decide)⟩

/-! ## The converter locator -/

/-- C17, what the code does: `getLibreOfficePath` looks at no file; it returns the first
entry of its list, the path under `C:\Program Files`, also in a world where no file exists
at all, in which a search of the list would end at the bare name `soffice`. -/
theorem getLibreOfficePath_fixed :
    (∀ p, quietWorld.existsSync p = false) ∧
      getLibreOfficePath = "\"C:\\Program Files\\LibreOffice\\program\\soffice.exe\"" ∧
      getLibreOfficePath ≠ "soffice" ∧
      (convert plainLib quietWorld
        ⟨some "pdf2word", [⟨"a.pdf", "application/pdf", "/tmp/u1"⟩]⟩).1.head? =
        some (.exec ("\"C:\\Program Files\\LibreOffice\\program\\soffice.exe\"" ++
          " --headless --convert-to docx --outdir /tmp \"/tmp/u1\"")) :=
  ⟨fun _ => rfl, rfl, by decide, by decide⟩

/-! ## Compression -/

theorem compresspdf_documents (L : Lib) (w : World) (file0 : UploadedFile)
    (files : List UploadedFile) (bytes : Bytes) (src : PdfDoc)
    (hread : w.readFileSync file0.path = .ok bytes) (hload : w.pdfLoad bytes = .ok src) :
    documents (compresspdf L w file0 files).trace = [src] := by
  have hnil : documents [] = [] := rfl
  have hsave : save src false = src := rfl
  simp only [compresspdf, Act.bind_eq, Act.call, Act.lift, Act.bind, hread, hload,
    copyPages_all, foldl_addPage, List.nil_append, hsave]
  cases w.writeFileSync (L.join w.tmpdir ("compressed_" ++ timestamp w ++ ".pdf")) <;>
    simp only [Act.pure_eq, cleanup, Act.emits, documents_cons, documents_append, writtenDoc,
      documents_unlinks, hnil, Option.toList, List.nil_append, List.append_nil,
      List.cons_append]

/-- C18: when the uploaded file loads as a document, the `compresspdf` recipe writes a
document with the same pages in the same order, without adding a blank page even when the
document has no page; and a second run of the recipe on a file that loads as the output of
the first writes that same document again. -/
theorem compresspdf_preserves (L : Lib) (w : World) (file0 : UploadedFile)
    (files : List UploadedFile) (bytes : Bytes) (src : PdfDoc)
    (hread : w.readFileSync file0.path = .ok bytes) (hload : w.pdfLoad bytes = .ok src) :
    documents (compresspdf L w file0 files).trace = [src] ∧
    (documents (compresspdf L w file0 files).trace).map List.length = [src.length] ∧
    ∀ out ∈ documents (compresspdf L w file0 files).trace,
      ∀ (again : World) (file1 : UploadedFile) (files1 : List UploadedFile) (bytes1 : Bytes),
        again.readFileSync file1.path = .ok bytes1 → again.pdfLoad bytes1 = .ok out →
        documents (compresspdf L again file1 files1).trace =
          documents (compresspdf L w file0 files).trace := by
  have hfirst := compresspdf_documents L w file0 files bytes src hread hload
  refine ⟨hfirst, by rw [hfirst]; rfl, ?_⟩
  intro out hout again file1 files1 bytes1 hread1 hload1
  rw [hfirst] at hout ⊢
  have hout' : out = src := List.mem_singleton.1 hout
  subst hout'
  exact compresspdf_documents L again file1 files1 bytes1 out hread1 hload1

/-- C18, at concrete requests: a document of three pages, and a document without pages. -/
theorem compresspdf_preserves_witness :
    documents (compresspdf plainLib bookWorld ⟨"a.pdf", "application/pdf", "/tmp/u1"⟩
        [⟨"a.pdf", "application/pdf", "/tmp/u1"⟩]).trace =
      [[⟨1, 1, []⟩, ⟨2, 2, []⟩, ⟨3, 3, []⟩]] ∧
    documents (compresspdf plainLib quietWorld ⟨"a.pdf", "application/pdf", "/tmp/u1"⟩
        [⟨"a.pdf", "application/pdf", "/tmp/u1"⟩]).trace = [[]] :=
  ⟨(compresspdf_preserves plainLib bookWorld ⟨"a.pdf", "application/pdf", "/tmp/u1"⟩
      [⟨"a.pdf", "application/pdf", "/tmp/u1"⟩] [] [⟨1, 1, []⟩, ⟨2, 2, []⟩, ⟨3, 3, []⟩]
      rfl rfl).1,
    (compresspdf_preserves plainLib quietWorld ⟨"a.pdf", "application/pdf", "/tmp/u1"⟩
      [⟨"a.pdf", "application/pdf", "/tmp/u1"⟩] [] [] rfl rfl).1⟩

/-! ## Artifact names -/

theorem digitChar_isDigit (k : Nat) (hk : k < 10) : (Nat.digitChar k).isDigit = true := by
  interval_cases k <;> rfl

theorem toDigitsCore_digits (fuel : Nat) : ∀ (n : Nat) (ds : List Char), n < fuel →
    ∃ digits, Nat.toDigitsCore 10 fuel n ds = digits ++ ds ∧ digits ≠ [] ∧
      ∀ c ∈ digits, c.isDigit = true := by
  induction fuel with
  | zero => intro n ds h; omega
  | succ fuel ih =>
    intro n ds hn
    simp only [Nat.toDigitsCore]
    have hd := digitChar_isDigit (n % 10) (Nat.mod_lt _ (by decide))
    by_cases h0 : n / 10 = 0
    · rw [if_pos h0]
      exact ⟨[Nat.digitChar (n % 10)], rfl, by simp, by simpa using hd⟩
    · rw [if_neg h0]
      obtain ⟨digits, hcore, -, hall⟩ := ih (n / 10) (Nat.digitChar (n % 10) :: ds) (by omega)
      refine ⟨digits ++ [Nat.digitChar (n % 10)], by simp [hcore], by simp, ?_⟩
      intro c hc
      rcases List.mem_append.1 hc with h | h
      · exact hall c h
      · rw [List.mem_singleton.1 h]
        exact hd

/-- The decimal text of a number is a non-empty run of digits. -/
theorem toString_digits (n : Nat) :
    (toString n).data ≠ [] ∧ ∀ c ∈ (toString n).data, c.isDigit = true := by
  obtain ⟨digits, hd, hne, hall⟩ := toDigitsCore_digits (n + 1) n [] (Nat.lt_succ_self n)
  have h : (toString n).data = digits := by
    show (Nat.repr n).data = digits
    simp only [Nat.repr, Nat.toDigits, List.asString, hd, List.append_nil]
  rw [h]
  exact ⟨hne, hall⟩

theorem takeWhile_append_stop {α : Type} (p : α → Bool) (xs ys : List α)
    (hxs : ∀ x ∈ xs, p x = true) (hys : ∀ y, ys.head? = some y → p y = false) :
    (xs ++ ys).takeWhile p = xs ∧ (xs ++ ys).dropWhile p = ys := by
  induction xs with
  | nil =>
    cases ys with
    | nil => exact ⟨rfl, rfl⟩
    | cons y ys =>
      have hy := hys y rfl
      simp [List.takeWhile_cons, List.dropWhile_cons, hy]
  | cons x xs ih =>
    have hx := hxs x (List.mem_cons_self _ _)
    have ih' := ih (fun a ha => hxs a (List.mem_cons_of_mem _ ha))
    simp [List.takeWhile_cons, List.dropWhile_cons, hx, ih'.1, ih'.2]

theorem name_parts (leading extension : String) (n : Nat)
    (hlead : ∀ c ∈ leading.data, c.isDigit = false)
    (hext : ∀ c, extension.data.head? = some c → c.isDigit = false) :
    leadingPart (leading ++ toString n ++ extension).data = leading.data ∧
      digitPart (leading ++ toString n ++ extension).data = (toString n).data ∧
      trailingPart (leading ++ toString n ++ extension).data = extension.data := by
  obtain ⟨hne, hdigits⟩ := toString_digits n
  have hdata : (leading ++ toString n ++ extension).data =
      leading.data ++ ((toString n).data ++ extension.data) := by
    simp only [String.data_append, List.append_assoc]
  have hhead : ∀ y, ((toString n).data ++ extension.data).head? = some y →
      (!y.isDigit) = false := by
    intro y hy
    cases hd : (toString n).data with
    | nil => exact absurd hd hne
    | cons d ds =>
      rw [hd] at hy
      simp only [List.cons_append, List.head?_cons, Option.some.injEq] at hy
      subst hy
      simp [hdigits d (by rw [hd]; exact List.mem_cons_self _ _)]
  have hfirst := takeWhile_append_stop (fun c => !c.isDigit) leading.data
    ((toString n).data ++ extension.data) (fun c hc => by simp [hlead c hc]) hhead
  have hsecond := takeWhile_append_stop Char.isDigit (toString n).data extension.data
    hdigits hext
  simp only [leadingPart, digitPart, trailingPart, hdata, hfirst.1, hfirst.2, hsecond.1,
    hsecond.2, and_self]

theorem mem_of_lookup {β : Type} (k : String) (l : List (String × β)) (v : β)
    (h : l.lookup k = some v) : (k, v) ∈ l := by
  induction l with
  | nil => simp [List.lookup] at h
  | cons a l ih =>
    obtain ⟨a1, a2⟩ := a
    by_cases hk : k = a1
    · subst hk
      simp only [List.lookup, beq_self_eq_true, Option.some.injEq] at h
      subst h
      exact List.mem_cons_self _ _
    · simp only [List.lookup, beq_false_of_ne hk] at h
      exact List.mem_cons_of_mem _ (ih h)

theorem artifactParts_shape : ∀ x ∈ artifactParts,
    (∀ c ∈ x.2.1.data, c.isDigit = false) ∧
      (∀ c, x.2.2.data.head? = some c → c.isDigit = false) := by
  decide

theorem artifactParts_distinct : ∀ x ∈ artifactParts, ∀ y ∈ artifactParts,
    x.2 = y.2 → x.1 = y.1 := by
  decide

theorem artifactName_injective (kind1 kind2 : String) (now1 now2 : Nat) (name : String)
    (h1 : artifactName kind1 now1 = some name) (h2 : artifactName kind2 now2 = some name) :
    kind1 = kind2 ∧ now1 = now2 := by
  simp only [artifactName] at h1 h2
  cases hl1 : artifactParts.lookup kind1 with
  | none => simp [hl1] at h1
  | some parts1 =>
    cases hl2 : artifactParts.lookup kind2 with
    | none => simp [hl2] at h2
    | some parts2 =>
      obtain ⟨lead1, ext1⟩ := parts1
      obtain ⟨lead2, ext2⟩ := parts2
      simp only [hl1, hl2, Option.some.injEq] at h1 h2
      have hm1 := mem_of_lookup kind1 artifactParts _ hl1
      have hm2 := mem_of_lookup kind2 artifactParts _ hl2
      obtain ⟨hlead1, hext1⟩ := artifactParts_shape _ hm1
      obtain ⟨hlead2, hext2⟩ := artifactParts_shape _ hm2
      obtain ⟨p1, d1, t1⟩ := name_parts lead1 ext1 now1 hlead1 hext1
      obtain ⟨p2, d2, t2⟩ := name_parts lead2 ext2 now2 hlead2 hext2
      rw [h1] at p1 d1 t1
      rw [h2] at p2 d2 t2
      have hlead : lead1 = lead2 := String.ext (p1.symm.trans p2)
      have hext : ext1 = ext2 := String.ext (t1.symm.trans t2)
      have hnow : toString now1 = toString now2 := String.ext (d1.symm.trans d2)
      refine ⟨?_, toString_nat_injective hnow⟩
      exact artifactParts_distinct _ hm1 _ hm2 (by simp [hlead, hext])

theorem officeRecipe_name (L : Lib) (w : World) (file0 : UploadedFile)
    (format outputFilename conversionType : String) (reply : Reply) (name url label : String)
    (h : (officeRecipe L w file0 format outputFilename conversionType).result = .ok reply)
    (hpage : reply.page = .successPage name url label) : name = outputFilename := by
  revert h
  simp only [officeRecipe, runExec, Act.bind_eq, Act.call]
  cases hx : execPromise (w.exec (officeCommand w format file0.path)) with
  | error e => simp [Act.bind]
  | ok out =>
    by_cases hex : w.existsSync (file0.path ++ "." ++ format) = true
    · cases hren : w.renameSync (file0.path ++ "." ++ format) (L.join w.tmpdir outputFilename) with
      | error e => simp [Act.bind, hex, hren]
      | ok u =>
        simp only [Act.bind, hex, hren, if_true, Act.pure_eq, cleanup, Act.emits, send]
        intro h
        injection h with h
        subst h
        simp only [Page.successPage.injEq] at hpage
        exact hpage.1.symm
    · simp only [Act.bind, hex, if_false, Act.pure_eq, cleanup, Act.emits, send]
      intro h
      injection h with h
      subst h
      simp only [Page.successPage.injEq] at hpage
      exact hpage.1.symm

theorem img2pdf_name (L : Lib) (w : World) (files : List UploadedFile) (reply : Reply)
    (name url label : String) (h : (img2pdf L w files).result = .ok reply)
    (hpage : reply.page = .successPage name url label) :
    name = "converted_images_" ++ timestamp w ++ ".pdf" := by
  revert h
  simp only [img2pdf, Act.bind_eq]
  cases hloop : (img2pdfLoop w files []).result with
  | error e => rw [Act.bind_of_error hloop]; intro h; cases h
  | ok doc =>
    rw [Act.bind_of_ok hloop]
    cases hw : w.writeFileSync (L.join w.tmpdir ("converted_images_" ++ timestamp w ++ ".pdf")) with
    | error e => simp [Act.bind, Act.call, hw]
    | ok u =>
      simp only [Act.bind, Act.call, hw, Act.pure_eq, cleanup, Act.emits, send]
      intro h
      injection h with h
      subst h
      simp only [Page.successPage.injEq] at hpage
      exact hpage.1.symm

theorem mergepdf_name (L : Lib) (w : World) (files : List UploadedFile) (reply : Reply)
    (name url label : String) (h : (mergepdf L w files).result = .ok reply)
    (hpage : reply.page = .successPage name url label) :
    name = "merged_pdfs_" ++ timestamp w ++ ".pdf" := by
  revert h
  simp only [mergepdf, Act.bind_eq]
  cases hloop : (mergeLoop w files []).result with
  | error e => rw [Act.bind_of_error hloop]; intro h; cases h
  | ok doc =>
    rw [Act.bind_of_ok hloop]
    cases hw : w.writeFileSync (L.join w.tmpdir ("merged_pdfs_" ++ timestamp w ++ ".pdf")) with
    | error e => simp [Act.bind, Act.call, hw]
    | ok u =>
      simp only [Act.bind, Act.call, hw, Act.pure_eq, cleanup, Act.emits, send]
      intro h
      injection h with h
      subst h
      simp only [Page.successPage.injEq] at hpage
      exact hpage.1.symm

theorem splitpdf_name (L : Lib) (w : World) (file0 : UploadedFile)
    (files : List UploadedFile) (reply : Reply)
    (name url label : String) (h : (splitpdf L w file0 files).result = .ok reply)
    (hpage : reply.page = .successPage name url label) :
    name = "split_pages_" ++ timestamp w ++ ".zip" := by
  revert h
  simp only [splitpdf, Act.bind_eq, Act.call, Act.emit]
  cases hr : w.readFileSync file0.path with
  | error e => simp [Act.bind]
  | ok bytes =>
    cases hl : w.pdfLoad bytes with
    | error e => simp [Act.bind, hl]
    | ok srcPdf =>
      cases hloop : (splitLoop srcPdf (List.range srcPdf.length)).result with
      | error e => simp [Act.bind, hl, hloop]
      | ok u =>
        cases hfin : w.archiveFinalize
            (L.join w.tmpdir ("split_pages_" ++ timestamp w ++ ".zip")) with
        | error e => simp [Act.bind, hl, hloop, hfin]
        | ok u =>
          simp only [Act.bind, hl, hloop, hfin, Act.pure_eq, cleanup, Act.emits, send]
          intro h
          injection h with h
          subst h
          simp only [Page.successPage.injEq] at hpage
          exact hpage.1.symm

theorem compresspdf_name (L : Lib) (w : World) (file0 : UploadedFile)
    (files : List UploadedFile) (reply : Reply)
    (name url label : String) (h : (compresspdf L w file0 files).result = .ok reply)
    (hpage : reply.page = .successPage name url label) :
    name = "compressed_" ++ timestamp w ++ ".pdf" := by
  revert h
  simp only [compresspdf, Act.bind_eq, Act.call, Act.lift]
  cases hr : w.readFileSync file0.path with
  | error e => simp [Act.bind]
  | ok bytes =>
    cases hl : w.pdfLoad bytes with
    | error e => simp [Act.bind, hl]
    | ok srcPdf =>
      cases hc : copyPages srcPdf (getPageIndices srcPdf) with
      | error e => simp [Act.bind, hl, hc]
      | ok pages =>
        cases hw : w.writeFileSync
            (L.join w.tmpdir ("compressed_" ++ timestamp w ++ ".pdf")) with
        | error e => simp [Act.bind, hl, hc, hw]
        | ok u =>
          simp only [Act.bind, hl, hc, hw, Act.pure_eq, cleanup, Act.emits, send]
          intro h
          injection h with h
          subst h
          simp only [Page.successPage.injEq] at hpage
          exact hpage.1.symm

theorem pdf2img_name (L : Lib) (w : World) (file0 : UploadedFile)
    (files : List UploadedFile) (reply : Reply)
    (name url label : String) (h : (pdf2img L w file0 files).result = .ok reply)
    (hpage : reply.page = .successPage name url label) :
    name = "pdf_images_" ++ timestamp w ++ ".zip" := by
  revert h
  simp only [pdf2img, runExec, Act.bind_eq, Act.call, Act.emit]
  cases hx : execPromise (w.exec (renderCommand w file0.path)) with
  | error e =>
    simp only [Act.bind, Act.tryCatch, Act.pure_eq, send, cleanup, Act.emits]
    intro h
    injection h with h
    subst h
    cases hpage
  | ok out =>
    cases hd : w.readdirSync w.tmpdir with
    | error e =>
      simp only [Act.bind, Act.tryCatch, Act.pure_eq, send, hd, cleanup, Act.emits]
      intro h
      injection h with h
      subst h
      cases hpage
    | ok listing =>
      by_cases hlen : (listing.filter
          (isRendered (L.basename file0.path (L.extname file0.path)))).length > 0
      · cases hfin : w.archiveFinalize
            (L.join w.tmpdir ("pdf_images_" ++ timestamp w ++ ".zip")) with
        | error e =>
          simp only [Act.bind, Act.tryCatch, Act.pure_eq, send, hd, hlen, hfin, if_true,
            Act.emits, cleanup]
          intro h
          injection h with h
          subst h
          cases hpage
        | ok u =>
          simp only [Act.bind, Act.tryCatch, Act.pure_eq, send, hd, hlen, hfin, if_true,
            Act.emits, cleanup]
          intro h
          injection h with h
          subst h
          simp only [Page.successPage.injEq] at hpage
          exact hpage.1.symm
      · simp only [Act.bind, Act.tryCatch, Act.pure_eq, send, hd, hlen, if_false, cleanup,
          Act.emits]
        intro h
        injection h with h
        subst h
        cases hpage

theorem dispatch_pdf2word (L : Lib) (w : World) (file0 : UploadedFile)
    (files : List UploadedFile) :
    dispatch L w (some "pdf2word") file0 files =
      officeRecipe L w file0 "docx" ("converted_" ++ timestamp w ++ ".docx") "PDF to Word" := by
  simp [dispatch]

theorem dispatch_word2pdf (L : Lib) (w : World) (file0 : UploadedFile)
    (files : List UploadedFile) :
    dispatch L w (some "word2pdf") file0 files =
      officeRecipe L w file0 "pdf" ("converted_" ++ timestamp w ++ ".pdf") "Word to PDF" := by
  simp [dispatch]

theorem dispatch_excel2pdf (L : Lib) (w : World) (file0 : UploadedFile)
    (files : List UploadedFile) :
    dispatch L w (some "excel2pdf") file0 files =
      officeRecipe L w file0 "pdf" ("converted_excel_" ++ timestamp w ++ ".pdf")
        "Excel to PDF" := by
  simp [dispatch]

theorem dispatch_pdf2excel (L : Lib) (w : World) (file0 : UploadedFile)
    (files : List UploadedFile) :
    dispatch L w (some "pdf2excel") file0 files =
      officeRecipe L w file0 "xlsx" ("converted_" ++ timestamp w ++ ".xlsx") "PDF to Excel" := by
  simp [dispatch]

theorem convert_success_reply (L : Lib) (w : World) (type : Option String)
    (files : List UploadedFile) (status : Nat) (name url label : String)
    (h : (convert L w ⟨type, files⟩).2 = .replied status (.successPage name url label)) :
    ∃ file0 rest reply, files = file0 :: rest ∧
      (dispatch L w type file0 files).result = .ok reply ∧
      reply.page = .successPage name url label := by
  cases files with
  | nil => simp [convert] at h
  | cons file0 rest =>
    revert h
    simp only [convert]
    cases hrules : validationRules type with
    | inherited => intro h; simp at h
    | undefined =>
      intro h
      obtain ⟨reply, hres, hpage, -⟩ := guarded_success L w type file0 _ status name url label h
      exact ⟨file0, rest, reply, rfl, hres, hpage⟩
    | rules allowed =>
      simp only []
      split
      · intro h
        simp [finish, Act.bind_eq, Act.bind, Act.pure_eq, cleanup, Act.emits, send] at h
      · intro h
        obtain ⟨reply, hres, hpage, -⟩ := guarded_success L w type file0 _ status name url label h
        exact ⟨file0, rest, reply, rfl, hres, hpage⟩

/-- C19: whenever the `/convert` handler answers with the success page, the reported file
name is the kind's leading text, the decimal creation timestamp and the kind's extension, a
function of the kind and the timestamp only; and that function is injective on the nine
file-producing kinds: two names that agree come from the same kind and the same timestamp. -/
theorem artifactName_determined :
    (∀ (L : Lib) (w : World) (type : String) (files : List UploadedFile) (status : Nat)
        (name url label : String),
      (convert L w ⟨some type, files⟩).2 = .replied status (.successPage name url label) →
      artifactName type w.now = some name) ∧
    (∀ (kind1 kind2 : String) (now1 now2 : Nat) (name : String),
      artifactName kind1 now1 = some name → artifactName kind2 now2 = some name →
      kind1 = kind2 ∧ now1 = now2) := by
  refine ⟨?_, artifactName_injective⟩
  intro L w type files status name url label h
  obtain ⟨file0, rest, reply, -, hres, hpage⟩ :=
    convert_success_reply L w (some type) files status name url label h
  by_cases hkind : type ∈ kinds
  · simp only [kinds_eq, List.mem_cons, List.mem_singleton, List.mem_nil_iff, or_false] at hkind
    rcases hkind with rfl | rfl | rfl | rfl | rfl | rfl | rfl | rfl | rfl | rfl
    · rw [dispatch_pdf2word] at hres
      rw [officeRecipe_name L w file0 _ _ _ reply name url label hres hpage]
      rfl
    · rw [dispatch_word2pdf] at hres
      rw [officeRecipe_name L w file0 _ _ _ reply name url label hres hpage]
      rfl
    · rw [dispatch_img2pdf] at hres
      rw [img2pdf_name L w files reply name url label hres hpage]
      rfl
    · rw [dispatch_pdf2img] at hres
      rw [pdf2img_name L w file0 files reply name url label hres hpage]
      rfl
    · rw [dispatch_excel2pdf] at hres
      rw [officeRecipe_name L w file0 _ _ _ reply name url label hres hpage]
      rfl
    · rw [dispatch_pdf2excel] at hres
      rw [officeRecipe_name L w file0 _ _ _ reply name url label hres hpage]
      rfl
    · rw [dispatch_mergepdf] at hres
      rw [mergepdf_name L w files reply name url label hres hpage]
      rfl
    · rw [dispatch_splitpdf] at hres
      rw [splitpdf_name L w file0 files reply name url label hres hpage]
      rfl
    · rw [dispatch_compresspdf] at hres
      rw [compresspdf_name L w file0 files reply name url label hres hpage]
      rfl
    · rw [dispatch_ocr, ocr_eq] at hres
      injection hres with hres
      subst hres
      cases hpage
  · rw [dispatch_of_not_kind L w (some type) file0 files
      (fun t ht => by rw [← Option.some.inj ht]; exact hkind)] at hres
    injection hres with hres
    subst hres
    cases hpage

/-- C19, at concrete requests: the name a successful `pdf2word` conversion reports, and the
only kind and timestamp that give the name `merged_pdfs_5.pdf`. -/
theorem artifactName_determined_witness :
    artifactName "pdf2word" convertedWorld.now = some "converted_1700000000000.docx" ∧
    ∀ kind now, artifactName kind now = some "merged_pdfs_5.pdf" →
      kind = "mergepdf" ∧ now = 5 :=
  ⟨artifactName_determined.1 plainLib convertedWorld "pdf2word"
      [⟨"a.pdf", "application/pdf", "/tmp/u1"⟩] 200 "converted_1700000000000.docx"
      "/download/converted_1700000000000.docx" "PDF to Word" (by decide),
    fun kind now h => artifactName_determined.2 kind "mergepdf" now 5 "merged_pdfs_5.pdf" h
      (by decide)⟩

/-! ## The subprocess promise -/

/-- C20: for every outcome `(err, stdout, stderr)` the subprocess reports, `execPromise`
resolves with `stdout` exactly when there is no error, and otherwise rejects with `stderr` if
it is not empty, else with `stdout` if it is not empty, else with the error object; it ends
in exactly one of the two ways, and awaiting it runs the command once. -/
theorem execPromise_outcome (r : ExecResult) (w : World) (cmd : String) :
    (r.err = none → execPromise r = .ok r.stdout) ∧
    (∀ err, r.err = some err →
      (r.stderr ≠ "" → execPromise r = .error (.str r.stderr)) ∧
      (r.stderr = "" → r.stdout ≠ "" → execPromise r = .error (.str r.stdout)) ∧
      (r.stderr = "" → r.stdout = "" → execPromise r = .error err)) ∧
    ((∃ out, execPromise r = .ok out) ↔ r.err = none) ∧
    (runExec w cmd).trace = [.exec cmd] ∧
    (runExec w cmd).result = execPromise (w.exec cmd) := by
  refine ⟨?_, ?_, ?_, rfl, rfl⟩
  · intro h
    simp only [execPromise, h]
  · intro err h
    refine ⟨?_, ?_, ?_⟩
    · intro h1
      simp only [execPromise, h, if_pos h1]
    · intro h1 h2
      have h3 : ¬ (r.stderr ≠ "") := fun hne => hne h1
      simp only [execPromise, h, if_neg h3, if_pos h2]
    · intro h1 h2
      simp only [execPromise, h, h1, h2, ne_eq, not_true_eq_false, if_false]
  · constructor
    · rintro ⟨out, hout⟩
      cases herr : r.err with
      | none => rfl
      | some err =>
        simp only [execPromise, herr] at hout
        split_ifs at hout
    · intro h
      exact ⟨r.stdout, by simp only [execPromise, h]⟩

/-- C20, at concrete outcomes: a clean exit, and failures with and without output. -/
theorem execPromise_outcome_witness :
    execPromise ⟨none, "done", "warning"⟩ = .ok "done" ∧
    execPromise ⟨some (.error "Error" "Command failed"), "out", "oops"⟩ = .error (.str "oops") ∧
    execPromise ⟨some (.error "Error" "Command failed"), "out", ""⟩ = .error (.str "out") ∧
    execPromise ⟨some (.error "Error" "Command failed"), "", ""⟩ =
      .error (.error "Error" "Command failed") :=
  ⟨(execPromise_outcome ⟨none, "done", "warning"⟩ quietWorld "").1 rfl,
    ((execPromise_outcome ⟨some (.error "Error" "Command failed"), "out", "oops"⟩
      quietWorld "").2.1 _ rfl).1 (by decide),
    ((execPromise_outcome ⟨some (.error "Error" "Command failed"), "out", ""⟩
      quietWorld "").2.1 _ rfl).2.1 rfl (by decide),
    ((execPromise_outcome ⟨some (.error "Error" "Command failed"), "", ""⟩
      quietWorld "").2.1 _ rfl).2.2 rfl rfl⟩

/-! ## Batches with skipped images -/

theorem img2pdf_run (L : Lib) (w : World) (imageOf : UploadedFile → Image)
    (files : List UploadedFile)
    (hfiles : ∀ file ∈ files, ∃ bytes, w.readFileSync file.path = .ok bytes ∧
      (file.mimetype = "image/jpeg" → w.embedJpg bytes = .ok (imageOf file)) ∧
      (file.mimetype = "image/png" → w.embedPng bytes = .ok (imageOf file)))
    (hwrite : w.writeFileSync
      (L.join w.tmpdir ("converted_images_" ++ timestamp w ++ ".pdf")) = .ok ()) :
    img2pdf L w files =
      ⟨(img2pdfLoop w files []).trace ++
          (.writeFileSync (L.join w.tmpdir ("converted_images_" ++ timestamp w ++ ".pdf"))
              (save ((files.filter supported).map (fun f => imagePage (imageOf f))) true) ::
            (files.map UploadedFile.path).map Effect.unlink),
        .ok (send (.successPage ("converted_images_" ++ timestamp w ++ ".pdf")
          ("/download/" ++ ("converted_images_" ++ timestamp w ++ ".pdf")) "Images to PDF"))⟩ := by
  obtain ⟨hres, -⟩ := img2pdfLoop_embedded w imageOf files [] hfiles
  rw [List.nil_append] at hres
  simp only [img2pdf, Act.bind_eq]
  rw [Act.bind_of_ok hres]
  simp only [Act.bind, Act.call, hwrite, Act.pure_eq, cleanup, Act.emits, List.append_nil,
    List.singleton_append]

/-- C23, as amended: for every batch that passes the `img2pdf` validation, whose files can be
read, whose JPEG and PNG files embed and whose output can be written, the handler answers
with the success page (status 200) however many files were skipped; the document written has
one page per JPEG or PNG file, and when every file was skipped it is not empty but consists
of the one blank page that `save()` adds. -/
theorem img2pdf_success_regardless (L : Lib) (w : World) (imageOf : UploadedFile → Image)
    (file0 : UploadedFile) (rest : List UploadedFile)
    (hvalid : ∀ file ∈ file0 :: rest, validateFileType L file img2pdfAllowed = true)
    (hfiles : ∀ file ∈ file0 :: rest, ∃ bytes, w.readFileSync file.path = .ok bytes ∧
      (file.mimetype = "image/jpeg" → w.embedJpg bytes = .ok (imageOf file)) ∧
      (file.mimetype = "image/png" → w.embedPng bytes = .ok (imageOf file)))
    (hwrite : w.writeFileSync
      (L.join w.tmpdir ("converted_images_" ++ toString w.now ++ ".pdf")) = .ok ()) :
    (convert L w ⟨some "img2pdf", file0 :: rest⟩).2 =
      .replied 200 (.successPage ("converted_images_" ++ toString w.now ++ ".pdf")
        ("/download/" ++ ("converted_images_" ++ toString w.now ++ ".pdf")) "Images to PDF") ∧
    documents (convert L w ⟨some "img2pdf", file0 :: rest⟩).1 =
      [save (((file0 :: rest).filter supported).map (fun f => imagePage (imageOf f))) true] ∧
    ((file0 :: rest).filter supported = [] →
      documents (convert L w ⟨some "img2pdf", file0 :: rest⟩).1 = [[defaultPage]]) := by
  have hrun := img2pdf_run L w imageOf (file0 :: rest) hfiles hwrite
  have hconv := convert_of_valid L w "img2pdf" img2pdfAllowed file0 rest rfl hvalid
  have hfin := guarded_of_ok L w (some "img2pdf") file0 (file0 :: rest) _ _
    ((dispatch_img2pdf L w file0 (file0 :: rest)).trans hrun)
  obtain ⟨-, hdocs⟩ := img2pdfLoop_embedded w imageOf (file0 :: rest) [] hfiles
  have hall : documents (convert L w ⟨some "img2pdf", file0 :: rest⟩).1 =
      [save (((file0 :: rest).filter supported).map (fun f => imagePage (imageOf f))) true] := by
    rw [hconv, hfin]
    simp only [documents_append, hdocs, documents_cons, writtenDoc, documents_unlinks,
      Option.toList, List.nil_append, List.append_nil, List.singleton_append]
  refine ⟨?_, hall, ?_⟩
  · rw [hconv, hfin]
    rfl
  · intro hnone
    rw [hall, hnone]
    rfl

/-- C23 as amended, at a concrete request: one GIF, which the recipe skips. -/
theorem img2pdf_success_regardless_witness :
    (convert plainLib quietWorld ⟨some "img2pdf", [⟨"a.gif", "image/gif", "/tmp/u1"⟩]⟩).2 =
      .replied 200 (.successPage "converted_images_1700000000000.pdf"
        "/download/converted_images_1700000000000.pdf" "Images to PDF") ∧
    documents (convert plainLib quietWorld
        ⟨some "img2pdf", [⟨"a.gif", "image/gif", "/tmp/u1"⟩]⟩).1 = [[⟨595, 842, []⟩]] :=
  have h := img2pdf_success_regardless plainLib quietWorld (fun _ => ⟨0, 0, ""⟩)
    ⟨"a.gif", "image/gif", "/tmp/u1"⟩ [] (by decide)
    (by
      intro file hfile
      rw [List.mem_singleton.1 hfile]
      exact ⟨[], rfl, by decide, by decide⟩)
    rfl
  ⟨h.1, h.2.2 (by decide)⟩

/-- C23 as stated fails: for the batch of one GIF the handler answers with the success page,
but every document it writes has a page: none has zero pages. -/
theorem img2pdf_skipped_not_empty_counterexample :
    validateFileType plainLib ⟨"a.gif", "image/gif", "/tmp/u1"⟩ img2pdfAllowed = true ∧
    (∀ doc ∈ documents (convert plainLib quietWorld
        ⟨some "img2pdf", [⟨"a.gif", "image/gif", "/tmp/u1"⟩]⟩).1, doc.length = 1) ∧
    ¬ ∃ doc ∈ documents (convert plainLib quietWorld
        ⟨some "img2pdf", [⟨"a.gif", "image/gif", "/tmp/u1"⟩]⟩).1, doc.length = 0 := by
  decide

/-! ## Cleanup on the file system -/

theorem isFile_none : isFile none = false := rfl

theorem fsUnlink_resolve (fs : FileSystem) (p : String) :
    (fsUnlink fs p).2.resolve = fs.resolve := by
  unfold fsUnlink
  cases fs.node (fs.resolve p) with
  | none => rfl
  | some node =>
    cases node with
    | directory => rfl
    | file content => cases fs.refusal (fs.resolve p) <;> rfl

theorem fsUnlink_refusal (fs : FileSystem) (p : String) :
    (fsUnlink fs p).2.refusal = fs.refusal := by
  unfold fsUnlink
  cases fs.node (fs.resolve p) with
  | none => rfl
  | some node =>
    cases node with
    | directory => rfl
    | file content => cases fs.refusal (fs.resolve p) <;> rfl

/-- Whether `fs.unlink` removes the entry `k`: it holds a file and the system does not
refuse. -/
theorem fsUnlink_node (fs : FileSystem) (p k : String) :
    (fsUnlink fs p).2.node k =
      if k = fs.resolve p ∧ isFile (fs.node k) = true ∧ fs.refusal k = none then none
      else fs.node k := by
  unfold fsUnlink
  by_cases hk : k = fs.resolve p
  · subst hk
    cases h : fs.node (fs.resolve p) with
    | none => simp [isFile_none, h]
    | some node =>
      cases node with
      | directory => simp [isFile, h]
      | file content =>
        cases hr : fs.refusal (fs.resolve p) with
        | none => simp [isFile]
        | some code => simp [isFile, h]
  · have hkeep : (if k = fs.resolve p ∧ isFile (fs.node k) = true ∧ fs.refusal k = none
        then none else fs.node k) = fs.node k := if_neg (fun h => hk h.1)
    rw [hkeep]
    cases fs.node (fs.resolve p) with
    | none => rfl
    | some node =>
      cases node with
      | directory => rfl
      | file content =>
        cases fs.refusal (fs.resolve p) with
        | none => simp [hk]
        | some code => rfl

theorem cleanupFs_cons (fs : FileSystem) (p : String) (paths : List String) :
    cleanupFs fs (p :: paths) = cleanupFs (fsUnlink fs p).2 paths := rfl

theorem cleanupFs_resolve (fs : FileSystem) (paths : List String) :
    (cleanupFs fs paths).resolve = fs.resolve := by
  induction paths generalizing fs with
  | nil => rfl
  | cons p paths ih => rw [cleanupFs_cons, ih, fsUnlink_resolve]

theorem cleanupFs_refusal (fs : FileSystem) (paths : List String) :
    (cleanupFs fs paths).refusal = fs.refusal := by
  induction paths generalizing fs with
  | nil => rfl
  | cons p paths ih => rw [cleanupFs_cons, ih, fsUnlink_refusal]

/-- The entries after `cleanup`: an entry is removed exactly when a listed path designates
it, it holds a file, and the system does not refuse to unlink it. -/
theorem cleanupFs_node (fs : FileSystem) (paths : List String) (k : String) :
    (cleanupFs fs paths).node k =
      if k ∈ paths.map fs.resolve ∧ isFile (fs.node k) = true ∧ fs.refusal k = none then none
      else fs.node k := by
  induction paths generalizing fs with
  | nil => simp [cleanupFs, cleanup, Act.emits]
  | cons p paths ih =>
    rw [cleanupFs_cons, ih, fsUnlink_resolve, fsUnlink_refusal, fsUnlink_node]
    by_cases hgo : isFile (fs.node k) = true ∧ fs.refusal k = none
    · by_cases hk : k = fs.resolve p
      · have hgone : (if k = fs.resolve p ∧ isFile (fs.node k) = true ∧ fs.refusal k = none
            then none else fs.node k) = none := if_pos ⟨hk, hgo⟩
        rw [hgone, if_neg (fun h => Bool.false_ne_true (isFile_none ▸ h.2.1)),
          if_pos ⟨by simp [hk], hgo⟩]
      · have hkeep : (if k = fs.resolve p ∧ isFile (fs.node k) = true ∧ fs.refusal k = none
            then none else fs.node k) = fs.node k := if_neg (fun h => hk h.1)
        rw [hkeep]
        simp only [List.map_cons, List.mem_cons, hk, false_or]
    · have hkeep : (if k = fs.resolve p ∧ isFile (fs.node k) = true ∧ fs.refusal k = none
          then none else fs.node k) = fs.node k := if_neg (fun h => hgo h.2)
      rw [hkeep, if_neg (fun h => hgo h.2), if_neg (fun h => hgo h.2)]

theorem FileSystem.ext_fields (a b : FileSystem) (hres : a.resolve = b.resolve)
    (hnode : a.node = b.node) (href : a.refusal = b.refusal) : a = b := by
  cases a
  cases b
  simp only [FileSystem.mk.injEq]
  exact ⟨hres, hnode, href⟩

/-- The unlinks of `cleanup` run asynchronously; the state once all have completed does not
depend on the order in which they complete. -/
theorem cleanupFs_perm (fs : FileSystem) (paths order : List String)
    (h : order.Perm paths) : cleanupFs fs order = cleanupFs fs paths := by
  apply FileSystem.ext_fields
  · rw [cleanupFs_resolve, cleanupFs_resolve]
  · funext k
    have hmem : k ∈ order.map fs.resolve ↔ k ∈ paths.map fs.resolve :=
      (h.map fs.resolve).mem_iff
    rw [cleanupFs_node, cleanupFs_node]
    simp only [hmem]
  · rw [cleanupFs_refusal, cleanupFs_refusal]

/-- C21, as amended: for every state of the file system and every list of paths, `cleanup`
does not throw and starts one unlink per listed path, dropping each error. Once the unlinks
have completed, every entry that a listed path designates, that holds a file and that the
system lets it unlink is gone; every entry whose unlink fails (nothing there, a directory, a
file the system refuses to unlink) is as before, listed or not; every entry that no listed
path designates is as before; and a second `cleanup` of the same list changes nothing
further. -/
theorem cleanup_filesystem (fs : FileSystem) (paths : List String) :
    (cleanup paths).result = .ok () ∧
    (cleanup paths).trace = paths.map Effect.unlink ∧
    (∀ p ∈ paths, isFile (fs.node (fs.resolve p)) = true → fs.refusal (fs.resolve p) = none →
      (cleanupFs fs paths).node (fs.resolve p) = none) ∧
    (∀ k, isFile (fs.node k) = false ∨ fs.refusal k ≠ none →
      (cleanupFs fs paths).node k = fs.node k) ∧
    (∀ k, (∀ p ∈ paths, fs.resolve p ≠ k) → (cleanupFs fs paths).node k = fs.node k) ∧
    (cleanupFs fs paths).resolve = fs.resolve ∧
    (cleanupFs fs paths).refusal = fs.refusal ∧
    cleanupFs (cleanupFs fs paths) paths = cleanupFs fs paths := by
  refine ⟨rfl, cleanup_trace paths, ?_, ?_, ?_, cleanupFs_resolve fs paths,
    cleanupFs_refusal fs paths, ?_⟩
  · intro p hp hfile hfree
    rw [cleanupFs_node, if_pos ⟨List.mem_map_of_mem fs.resolve hp, hfile, hfree⟩]
  · intro k hfail
    rw [cleanupFs_node]
    refine if_neg (fun h => ?_)
    rcases hfail with hno | hrefused
    · rw [h.2.1] at hno
      exact Bool.noConfusion hno
    · exact hrefused h.2.2
  · intro k hk
    rw [cleanupFs_node]
    refine if_neg (fun h => ?_)
    obtain ⟨p, hp, hpk⟩ := List.mem_map.1 h.1
    exact hk p hp hpk
  · apply FileSystem.ext_fields
    · rw [cleanupFs_resolve]
    · funext k
      rw [cleanupFs_node (cleanupFs fs paths) paths k, cleanupFs_resolve, cleanupFs_refusal]
      by_cases hgone : k ∈ paths.map fs.resolve ∧ isFile (fs.node k) = true ∧
          fs.refusal k = none
      · have hnow : (cleanupFs fs paths).node k = none := by
          rw [cleanupFs_node, if_pos hgone]
        rw [hnow]
        simp only [isFile_none, Bool.false_eq_true, false_and, and_false, if_false]
      · have hnow : (cleanupFs fs paths).node k = fs.node k := by
          rw [cleanupFs_node, if_neg hgone]
        rw [hnow, if_neg hgone]
    · rw [cleanupFs_refusal]

/-- C21 as amended, at a concrete state and the list `/tmp/./u1`, `/tmp/u2`, `/tmp/missing`,
`/tmp/d`: the upload `u1`, listed under another spelling of its path, goes; the upload `u2`,
which the system refuses to unlink, the directory and the unlisted file stay as they
were. -/
theorem cleanup_filesystem_witness :
    (cleanupFs smallFs ["/tmp/./u1", "/tmp/u2", "/tmp/missing", "/tmp/d"]).node "/tmp/u1" =
      none ∧
    (cleanupFs smallFs ["/tmp/./u1", "/tmp/u2", "/tmp/missing", "/tmp/d"]).node "/tmp/u2" =
      some (.file [5, 6]) ∧
    (cleanupFs smallFs ["/tmp/./u1", "/tmp/u2", "/tmp/missing", "/tmp/d"]).node "/tmp/d" =
      some .directory ∧
    (cleanupFs smallFs ["/tmp/./u1", "/tmp/u2", "/tmp/missing", "/tmp/d"]).node "/tmp/keep" =
      some (.file [4]) :=
  ⟨(cleanup_filesystem smallFs ["/tmp/./u1", "/tmp/u2", "/tmp/missing", "/tmp/d"]).2.2.1
      "/tmp/./u1" (by decide) (by decide) (by decide),
    ((cleanup_filesystem smallFs ["/tmp/./u1", "/tmp/u2", "/tmp/missing", "/tmp/d"]).2.2.2.1
      "/tmp/u2" (Or.inr (by decide))).trans (by decide),
    ((cleanup_filesystem smallFs ["/tmp/./u1", "/tmp/u2", "/tmp/missing", "/tmp/d"]).2.2.2.1
      "/tmp/d" (Or.inl (by decide))).trans (by decide),
    ((cleanup_filesystem smallFs ["/tmp/./u1", "/tmp/u2", "/tmp/missing", "/tmp/d"]).2.2.2.2.1
      "/tmp/keep" (by decide)).trans (by decide)⟩

/-- C21 as stated fails: an upload that exists and is listed, but that the system refuses to
unlink because it is in use, still exists with its content after `cleanup`, which reports
nothing. -/
theorem cleanup_refused_counterexample :
    "/tmp/u2" ∈ ["/tmp/u1", "/tmp/u2"] ∧
    smallFs.node (smallFs.resolve "/tmp/u2") = some (.file [5, 6]) ∧
    (cleanup ["/tmp/u1", "/tmp/u2"]).result = .ok () ∧
    (cleanupFs smallFs ["/tmp/u1", "/tmp/u2"]).node (smallFs.resolve "/tmp/u2") =
      some (.file [5, 6]) ∧
    (cleanupFs smallFs ["/tmp/u1", "/tmp/u2"]).node (smallFs.resolve "/tmp/u1") = none := by
  decide

/-! ## The path of a download -/

theorem plainSegment_iff (cs : List Char) :
    plainSegment cs = true ↔ cs ≠ [] ∧ '/' ∉ cs ∧ cs ≠ ['.'] ∧ cs ≠ ['.', '.'] := by
  simp only [plainSegment, Bool.and_eq_true, decide_eq_true_iff, and_assoc]

theorem segments_append_sep (s rest : List Char) (hs : '/' ∉ s) :
    segments (s ++ '/' :: rest) = s :: segments rest := by
  induction s with
  | nil => simp [segments]
  | cons c s ih =>
    have hc : c ≠ '/' := fun h => hs (by simp [h])
    have hs' : '/' ∉ s := fun h => hs (List.mem_cons_of_mem _ h)
    have hstep : segments (c :: (s ++ '/' :: rest)) =
        (match segments (s ++ '/' :: rest) with
          | s :: ss => (c :: s) :: ss
          | [] => [[c]]) := by
      simp only [segments, if_neg hc]
    rw [List.cons_append, hstep, ih hs']

theorem segments_plain (s : List Char) (hs : '/' ∉ s) : segments s = [s] := by
  induction s with
  | nil => rfl
  | cons c s ih =>
    have hc : c ≠ '/' := fun h => hs (by simp [h])
    have hs' : '/' ∉ s := fun h => hs (List.mem_cons_of_mem _ h)
    simp only [segments, if_neg hc, ih hs']

theorem segments_joinSegments (segs : List (List Char)) (hne : segs ≠ [])
    (hsegs : ∀ s ∈ segs, '/' ∉ s) : segments (joinSegments segs) = segs := by
  induction segs with
  | nil => exact absurd rfl hne
  | cons s rest ih =>
    cases rest with
    | nil => exact segments_plain s (hsegs s (List.mem_cons_self _ _))
    | cons t rest =>
      simp only [joinSegments]
      rw [segments_append_sep s _ (hsegs s (List.mem_cons_self _ _)),
        ih (by simp) (fun x hx => hsegs x (List.mem_cons_of_mem _ hx))]

theorem joinSegments_snoc (segs : List (List Char)) (name : List Char) (hne : segs ≠ []) :
    joinSegments (segs ++ [name]) = joinSegments segs ++ '/' :: name := by
  induction segs with
  | nil => exact absurd rfl hne
  | cons s rest ih =>
    cases rest with
    | nil => rfl
    | cons t rest =>
      have h : joinSegments (t :: (rest ++ [name])) =
          joinSegments (t :: rest) ++ '/' :: name := ih (by simp)
      have hstep : joinSegments (s :: t :: (rest ++ [name])) =
          s ++ '/' :: joinSegments (t :: (rest ++ [name])) := rfl
      have hleft : joinSegments (s :: t :: rest) = s ++ '/' :: joinSegments (t :: rest) := rfl
      rw [List.cons_append, List.cons_append, hstep, h, hleft, List.append_assoc]
      rfl

theorem joinSegments_ne_nil (s : List Char) (rest : List (List Char)) (hs : s ≠ []) :
    joinSegments (s :: rest) ≠ [] := by
  cases rest with
  | nil => exact hs
  | cons t rest =>
    simp only [joinSegments]
    intro h
    exact hs (List.append_eq_nil.1 h).1

theorem resolveSegment_plain (allowAboveRoot : Bool) (kept : List (List Char))
    (seg : List Char) (hseg : plainSegment seg = true) :
    resolveSegment allowAboveRoot kept seg = seg :: kept := by
  obtain ⟨h1, -, h3, h4⟩ := (plainSegment_iff seg).1 hseg
  simp only [resolveSegment, h1, h3, h4, or_self, if_false]

theorem foldl_resolveSegment_plain (allowAboveRoot : Bool) (segs : List (List Char))
    (kept : List (List Char)) (hsegs : ∀ s ∈ segs, plainSegment s = true) :
    segs.foldl (resolveSegment allowAboveRoot) kept = segs.reverse ++ kept := by
  induction segs generalizing kept with
  | nil => rfl
  | cons s rest ih =>
    simp only [List.foldl_cons, resolveSegment_plain allowAboveRoot kept s
      (hsegs s (List.mem_cons_self _ _)), List.reverse_cons, List.append_assoc,
      List.singleton_append]
    exact ih _ (fun x hx => hsegs x (List.mem_cons_of_mem _ hx))

theorem joinSegments_last (segs : List (List Char)) (hne : segs ≠ [])
    (hsegs : ∀ s ∈ segs, plainSegment s = true) :
    ∃ init c, joinSegments segs = init ++ [c] ∧ c ≠ '/' := by
  induction segs with
  | nil => exact absurd rfl hne
  | cons s rest ih =>
    cases rest with
    | nil =>
      obtain ⟨h1, h2, -, -⟩ := (plainSegment_iff s).1 (hsegs s (List.mem_cons_self _ _))
      refine ⟨s.dropLast, s.getLast h1, (List.dropLast_append_getLast h1).symm, ?_⟩
      intro h
      exact h2 (h ▸ List.getLast_mem h1)
    | cons t rest =>
      obtain ⟨init, c, hjoin, hc⟩ := ih (by simp)
        (fun x hx => hsegs x (List.mem_cons_of_mem _ hx))
      refine ⟨s ++ '/' :: init, c, ?_, hc⟩
      have hstep : joinSegments (s :: t :: rest) = s ++ '/' :: joinSegments (t :: rest) := rfl
      rw [hstep, hjoin, List.append_assoc]
      rfl

theorem posixNormalize_plain (segs : List (List Char)) (hne : segs ≠ [])
    (hsegs : ∀ s ∈ segs, plainSegment s = true) :
    posixNormalize (String.mk ('/' :: joinSegments segs)) =
      String.mk ('/' :: joinSegments segs) := by
  have hslash : ∀ s ∈ segs, '/' ∉ s := fun s hs => ((plainSegment_iff s).1 (hsegs s hs)).2.1
  obtain ⟨init, c, hjoin, hc⟩ := joinSegments_last segs hne hsegs
  have hres : joinSegments segs ≠ [] := by
    rw [hjoin]
    simp
  have h0 : ¬ (String.mk ('/' :: joinSegments segs) = "") := by
    intro h
    have := congrArg String.data h
    simp at this
  have hlast : ¬ (('/' :: joinSegments segs).getLast? = some '/') := by
    have hcat : '/' :: joinSegments segs = ('/' :: init) ++ [c] := by rw [hjoin]; rfl
    rw [hcat, List.getLast?_concat]
    intro h
    exact hc (Option.some.inj h)
  have hsegments : segments ('/' :: joinSegments segs) = [] :: segs := by
    simp only [segments, if_true, segments_joinSegments segs hne hslash]
  have hfold : List.foldl (resolveSegment false) [] ([] :: segs) = segs.reverse := by
    have hskip : resolveSegment false [] [] = [] := rfl
    rw [List.foldl_cons, hskip, foldl_resolveSegment_plain false _ [] hsegs, List.append_nil]
  unfold posixNormalize
  rw [if_neg h0]
  simp only [List.head?_cons, decide_True, Bool.not_true, hsegments, hfold, List.reverse_reverse,
    hres, if_false, if_true, hlast, decide_False, List.singleton_append, List.append_nil,
    Bool.false_eq_true]

theorem posixJoin_plain (dirs : List (List Char)) (name : String) (hne : dirs ≠ [])
    (hdirs : ∀ s ∈ dirs, plainSegment s = true) (hname : plainSegment name.data = true) :
    posixJoin (String.mk ('/' :: joinSegments dirs)) name =
      String.mk ('/' :: joinSegments dirs) ++ "/" ++ name := by
  have hdir : ¬ (String.mk ('/' :: joinSegments dirs) = "") := by
    intro h
    have := congrArg String.data h
    simp at this
  have hnm : ¬ (name = "") := by
    intro h
    exact ((plainSegment_iff name.data).1 hname).1 (by rw [h])
  have hcat : String.mk ('/' :: joinSegments dirs) ++ "/" ++ name =
      String.mk ('/' :: joinSegments (dirs ++ [name.data])) := by
    apply String.ext
    simp only [String.data_append, joinSegments_snoc dirs name.data hne, List.cons_append,
      List.append_assoc]
    rfl
  have hall : ∀ s ∈ dirs ++ [name.data], plainSegment s = true := by
    intro s hs
    rcases List.mem_append.1 hs with h | h
    · exact hdirs s h
    · rw [List.mem_singleton.1 h]
      exact hname
  unfold posixJoin
  rw [if_neg hdir, if_neg hnm, hcat, posixNormalize_plain _ (by simp) hall]

theorem directChild_join (dir name : String) (hname : plainSegment name.data = true) :
    directChild dir (dir ++ "/" ++ name) = true := by
  have hdata : (dir ++ "/" ++ name).data = (dir.data ++ ['/']) ++ name.data := by
    simp only [String.data_append, List.append_assoc]
  have hlen : dir.data.length + 1 = (dir.data ++ ['/']).length := by simp
  simp only [directChild, hdata, Bool.and_eq_true, List.isPrefixOf_iff_prefix]
  refine ⟨List.prefix_append _ _, ?_⟩
  rw [hlen, List.drop_left]
  exact hname

/-- Plain names stay in the temp directory: with Node's POSIX `path.join` and the temp
directory an absolute path of plain segments, for every `:filename` that is one plain segment
(not empty, without `/`, neither `.` nor `..`) the path the download route tests for
existence, streams and later unlinks is the temp directory, a `/`, and that name. -/
theorem download_path_plain (w : World) (dirs : List (List Char)) (filename : String)
    (hne : dirs ≠ []) (hdirs : ∀ s ∈ dirs, plainSegment s = true)
    (htmp : w.tmpdir = String.mk ('/' :: joinSegments dirs))
    (hname : plainSegment filename.data = true) :
    downloadPath posixLib w filename = w.tmpdir ++ "/" ++ filename ∧
    directChild w.tmpdir (downloadPath posixLib w filename) = true ∧
    (w.existsSync (w.tmpdir ++ "/" ++ filename) = true →
      download posixLib w filename = .download (w.tmpdir ++ "/" ++ filename) 5000) ∧
    (w.existsSync (w.tmpdir ++ "/" ++ filename) = false →
      download posixLib w filename =
        .replied 404 (.errorPage "File not found or has expired.")) := by
  have hpath : downloadPath posixLib w filename = w.tmpdir ++ "/" ++ filename := by
    show posixJoin w.tmpdir filename = _
    rw [htmp]
    exact posixJoin_plain dirs filename hne hdirs hname
  refine ⟨hpath, ?_, ?_, ?_⟩
  · rw [hpath]
    exact directChild_join w.tmpdir filename hname
  · intro h
    simp only [download, hpath, h, if_true]
  · intro h
    simp only [download, hpath, h, Bool.false_eq_true, if_false]

/-- An artifact name in `/tmp` is served from `/tmp`. -/
theorem download_path_plain_witness :
    downloadPath posixLib convertedWorld "merged_pdfs_5.pdf" = "/tmp/merged_pdfs_5.pdf" ∧
    directChild "/tmp" (downloadPath posixLib convertedWorld "merged_pdfs_5.pdf") = true ∧
    download posixLib convertedWorld "merged_pdfs_5.pdf" =
      .download "/tmp/merged_pdfs_5.pdf" 5000 :=
  have h := download_path_plain convertedWorld ["tmp".data] "merged_pdfs_5.pdf" (by decide)
    (by decide) rfl (by decide)
  ⟨h.1, h.2.1, h.2.2.1 rfl⟩

/-- C22, what the code does: the download route takes the path `path.join` gives for the
temp directory and the `:filename` parameter as it is, whatever the library's `join` and
whatever the parameter, and looks at nothing but whether that path exists. For the parameter
`../etc/passwd` (sent as `..%2Fetc%2Fpasswd`) and the temp directory `/tmp`, `path.join`
resolves the `..`: the route tests, streams and five seconds later unlinks `/etc/passwd`,
which is not a direct child of the temp directory and not under it at all. -/
theorem download_leaves_tmpdir :
    (∀ (L : Lib) (w : World) (filename : String),
      download L w filename =
        if w.existsSync (L.join w.tmpdir filename) then
          .download (L.join w.tmpdir filename) 5000
        else .replied 404 (.errorPage "File not found or has expired.")) ∧
    convertedWorld.tmpdir = "/tmp" ∧
    downloadPath posixLib convertedWorld "../etc/passwd" = "/etc/passwd" ∧
    convertedWorld.existsSync "/etc/passwd" = true ∧
    download posixLib convertedWorld "../etc/passwd" = .download "/etc/passwd" 5000 ∧
    directChild "/tmp" "/etc/passwd" = false ∧
    ("/tmp/".data).isPrefixOf "/etc/passwd".data = false :=
  ⟨fun _ _ _ => rfl, by decide, by decide, by decide, by decide, by decide, by decide⟩

end ZeroTrace
